import Mathlib

/-!
Verification development for the cnx-epub content model and its
transformation engine (the `cnxepub` Python package).

The Python sources are shallowly embedded: pure functions become Lean
functions, stateful objects become explicit state passing, machine
behaviour of CPython (string splitting, dictionary iteration order,
mixed-type sort keys) is reproduced by executable Lean definitions.
Fallible constructors and parsers return `Except PyErr`.

All definitions are translated from the repository sources
(`models.py`, `formatters.py`, `html_parsers.py`, `epub.py`,
`adapters.py`).  The single exception is the single-document
reconstitutor `adapt_single_html`, whose implementation is not part of
the source tree (only its caller `collation.reconstitute` and its test
suite are); it is modelled from the specification, and every such
definition is marked `Modelled from the spec:` in its doc comment.
-/

namespace CnxEpub

/-! ## CPython string primitives

Executable counterparts of the CPython string operations the sources
rely on.  All are structural recursions over `String.data`, so that
concrete witnesses evaluate inside the kernel. -/

/-- The characters of a string, as a list. -/
def chars (s : String) : List Char := s.data

/-- Build a string back from a list of characters. -/
def ofChars (l : List Char) : String := ⟨l⟩

/-- Auxiliary loop for `pySplitChar`: accumulates the current field in
reverse while scanning the character list. -/
def pySplitCharAux (sep : Char) : List Char → List Char → List String
  | acc, [] => [ofChars acc.reverse]
  | acc, c :: cs =>
    if c = sep then ofChars acc.reverse :: pySplitCharAux sep [] cs
    else pySplitCharAux sep (c :: acc) cs

/-- Python `s.split(sep)` for a one-character separator: every
occurrence of `sep` starts a new field, and empty fields are kept
(so `"a@".split("@") == ["a", ""]` and `"".split("@") == [""]`). -/
def pySplitChar (sep : Char) (s : String) : List String :=
  pySplitCharAux sep [] (chars s)

/-- Python `sep in s` membership test for a one-character needle. -/
def pyContainsChar (c : Char) (s : String) : Bool :=
  (chars s).contains c

/-- Python `s.replace(old, "")` for a one-character pattern: drop every
occurrence of the character. -/
def pyRemoveChar (c : Char) (s : String) : String :=
  ofChars ((chars s).filter (fun d => d ≠ c))

/-- Python `s.replace(old, new)` for a one-character pattern and a
one-character replacement. -/
def pyReplaceChar1 (old new : Char) (s : String) : String :=
  ofChars ((chars s).map (fun d => if d = old then new else d))

/-- Python `s.startswith(p)`. -/
def pyStartsWith (p s : String) : Bool :=
  (chars p).isPrefixOf (chars s)

/-- Python `s[n:]` for a non-negative index, in characters. -/
def pyDrop (n : Nat) (s : String) : String :=
  ofChars ((chars s).drop n)

/-- Python `re.split("@|#", s)[0]`: the longest prefix free of both
separators. -/
def pyTakeUntilAtHash (s : String) : String :=
  ofChars ((chars s).takeWhile (fun c => c ≠ '@' ∧ c ≠ '#'))

/-- Python `s[s.index("#"):]`: the suffix starting at the first `#`
(total here: the empty string when no `#` occurs). -/
def pyFromHash (s : String) : String :=
  ofChars ((chars s).dropWhile (fun c => c ≠ '#'))

/-- Python truthiness of an optional string: `None` and `""` are falsy. -/
def pyTruthy : Option String → Bool
  | none => false
  | some s => s ≠ ""

/-- Decimal digits of a natural number, by fuel (structural, so that
concrete evaluation stays inside the kernel). -/
def natToCharsGo : Nat → Nat → List Char → List Char
  | 0, _, acc => acc
  | fuel + 1, n, acc =>
    let acc2 := Char.ofNat (48 + n % 10) :: acc
    if n < 10 then acc2 else natToCharsGo fuel (n / 10) acc2

/-- Decimal rendering of a natural number. -/
def natStr (n : Nat) : String :=
  ofChars (natToCharsGo (n + 1) n [])

/-! ## Python exception surrogates

The exception classes raised by the embedded code.  `ValueError` is
CPython's built-in; the rest are declared in `cnxepub.epub` and
`cnxepub.adapters`. -/

/-- The exceptions the embedded fragments can raise. -/
inductive PyErr where
  | valueError (msg : String)
  | typeError (msg : String)
  | missingNavigationError (msg : String)
  | additionalNavigationError (msg : String)
  | missingMetadataError (msg : String)
  | adaptationError (msg : String)
  deriving DecidableEq, Repr

/-! ## Identifier handling on `Document` and `Binder` (models.py)

`Document.id` and `Binder.id` share the same setter body:

    if value and "@" in value:
        self._id, self.metadata["version"] = value.split("@")
    else:
        self._id = value

`value.split("@")` splits on every `@`; unpacking its result into two
targets raises `ValueError` unless the list has exactly two elements. -/

/-- Outcome of the shared id-setter logic: the new `_id` value and, when
the version branch was taken, the new `metadata["version"]`. -/
structure IdSetResult where
  newId : Option String
  newVersion : Option String
  deriving DecidableEq, Repr

/-- The shared body of `Document.id.setter` and `Binder.id.setter`
(models.py lines 391-397 and 477-483): when `value` is truthy and
contains `@`, `value.split("@")` is unpacked into `_id` and
`metadata["version"]` — a `ValueError` when the split does not have
exactly two parts; otherwise `_id` is assigned directly and the version
is untouched. -/
def modelIdSetter (value : Option String) : Except PyErr IdSetResult :=
  if pyTruthy value ∧ pyContainsChar '@' (value.getD "") then
    match pySplitChar '@' (value.getD "") with
    | [i, v] => .ok { newId := some i, newVersion := some v }
    | _ => .error (.valueError "too many values to unpack")
  else
    .ok { newId := value, newVersion := none }

/-- Metadata record carrying the fields the embedded fragments read.
`version` mirrors `metadata["version"]`, `cnxArchiveUri` mirrors
`metadata["cnx-archive-uri"]`. -/
structure MetaD where
  title : String := ""
  version : Option String := none
  cnxArchiveUri : Option String := none
  url : Option String := none
  deriving DecidableEq, Repr

/-- State of a `models.Binder` as far as identity is concerned: the
private `_id` slot and the metadata mapping. -/
structure BinderId where
  _id : Option String := none
  metadata : MetaD := {}
  deriving DecidableEq, Repr

/-- `Binder.id.setter` applied to a binder state. -/
def BinderId.setId (b : BinderId) (value : Option String) : Except PyErr BinderId :=
  match modelIdSetter value with
  | .ok r =>
    .ok { b with _id := r.newId,
                 metadata := match r.newVersion with
                             | some v => { b.metadata with version := some v }
                             | none => b.metadata }
  | .error e => .error e

/-- State of a `models.Document` as far as identity is concerned. -/
structure DocumentId where
  _id : Option String := none
  metadata : MetaD := {}
  deriving DecidableEq, Repr

/-- `Document.id.setter` applied to a document state. -/
def DocumentId.setId (d : DocumentId) (value : Option String) : Except PyErr DocumentId :=
  match modelIdSetter value with
  | .ok r =>
    .ok { d with _id := r.newId,
                 metadata := match r.newVersion with
                             | some v => { d.metadata with version := some v }
                             | none => d.metadata }
  | .error e => .error e

/-- `TRANSLUCENT_BINDER_ID` (models.py line 40). -/
def TRANSLUCENT_BINDER_ID : String := "subcol"

/-- `Binder.ident_hash` (models.py lines 403-413): `None` when `_id` is
`None` or the reserved translucent id; otherwise the id joined with the
metadata version by `@` when a version is present. -/
def BinderId.identHash (b : BinderId) : Option String :=
  if b._id ≠ none ∧ b._id ≠ some TRANSLUCENT_BINDER_ID then
    match b.metadata.version with
    | some v => some ((b._id.getD "") ++ "@" ++ v)
    | none => b._id
  else
    none

/-- `Document.ident_hash` (models.py lines 489-499): `None` only when
`_id` is `None`; no reserved id is excluded for documents. -/
def DocumentId.identHash (d : DocumentId) : Option String :=
  if d._id ≠ none then
    match d.metadata.version with
    | some v => some ((d._id.getD "") ++ "@" ++ v)
    | none => d._id
  else
    none

/-! ## References (models.py, class Reference)

A `Reference` wraps an xml element attribute (`elm.get(uri_attr)` /
`elm.set(uri_attr, v)`).  Binding a model stores the model and a format
template; `_get_uri` recomputes the stored attribute from the bound
model's current `id` on every read.  The bound model's mutable `id` is
passed explicitly as `targetId` wherever the Python object graph would
be dereferenced. -/

/-- Python `template.format(arg)` for a template containing a single
positional `{}` placeholder (the shape used with `Reference.bind`):
the first occurrence of `{}` is replaced by `arg`. -/
def pyFormat1Aux (arg : String) : List Char → List Char
  | [] => []
  | '{' :: '}' :: rest => chars arg ++ rest
  | c :: rest => c :: pyFormat1Aux arg rest

/-- Python `template.format(arg)` for a single-placeholder template. -/
def pyFormat1 (template arg : String) : String :=
  ofChars (pyFormat1Aux arg (chars template))

/-- State of a `models.Reference`: the element's stored uri attribute
value, and the `_uri_template` of the active binding (`none` when
unbound, mirroring `_bound_model is None`). -/
structure ReferenceS where
  elmUri : String := ""
  uriTemplate : Option String := none
  deriving DecidableEq, Repr

/-- `Reference.is_bound`. -/
def ReferenceS.isBound (r : ReferenceS) : Bool :=
  r.uriTemplate.isSome

/-- `Reference._set_uri_from_bound_model`: write
`template.format(bound_model.id)` into the element attribute.
`targetId` is the bound model's current `id`. -/
def ReferenceS.setUriFromBoundModel (r : ReferenceS) (targetId : String) : ReferenceS :=
  { r with elmUri := pyFormat1 (r.uriTemplate.getD "{}") targetId }

/-- `Reference.bind(model, template)`: store the binding and immediately
derive the uri from the model's current id. -/
def ReferenceS.bind (r : ReferenceS) (targetId : String) (template : String) : ReferenceS :=
  ReferenceS.setUriFromBoundModel { r with uriTemplate := some template } targetId

/-- `Reference.unbind`. -/
def ReferenceS.unbind (r : ReferenceS) : ReferenceS :=
  { r with uriTemplate := none }

/-- Reading `Reference.uri` (`_get_uri`): when bound, first refresh the
stored value from the bound model's current id, then return the element
attribute.  The returned pair is (value read, state after the read),
since the read updates the element in place. -/
def ReferenceS.getUri (r : ReferenceS) (targetId : String) : String × ReferenceS :=
  let r' := if r.isBound then r.setUriFromBoundModel targetId else r
  (r'.elmUri, r')

/-- Writing `Reference.uri` (`_set_uri`): a `ValueError` while a binding
is active, otherwise set the element attribute. -/
def ReferenceS.setUri (r : ReferenceS) (value : String) : Except PyErr ReferenceS :=
  if r.isBound then .error (.valueError "URI is bound to an object. Unbind first.")
  else .ok { r with elmUri := value }

/-! ## EPUB package construction (epub.py, class Package) -/

/-- An `epub.Item`, reduced to the fields `Package.__init__` reads. -/
structure ItemS where
  name : String
  isNavigation : Bool := false
  deriving DecidableEq, Repr

/-- An `epub.Package` after successful construction: the item list and
the stored `_navigation_item_index`. -/
structure PackageS where
  name : String
  items : List ItemS
  navigationItemIndex : Nat
  deriving DecidableEq, Repr

/-- `Package.__init__` (epub.py lines 332-346): filter the items by
`is_navigation`; zero matches raise `MissingNavigationError`, two or
more raise `AdditionalNavigationError`, and exactly one stores
`self._items.index(navigation_items[0])`. -/
def PackageS.init (name : String) (items : List ItemS) : Except PyErr PackageS :=
  let navigationItems := items.filter (fun i => i.isNavigation)
  if navigationItems.length = 0 then
    .error (.missingNavigationError "Navigation item not found")
  else if navigationItems.length > 1 then
    .error (.additionalNavigationError "Only one navigation item can exist per package.")
  else
    .ok { name := name, items := items,
          navigationItemIndex := items.indexOf (navigationItems.headD ⟨"", false⟩) }

/-- `Package.navigation` (epub.py lines 415-417):
`self._items[self._navigation_item_index]`. -/
def PackageS.navigation (p : PackageS) : Option ItemS :=
  p.items.get? p.navigationItemIndex

/-! ## TranslucentBinder as a mutable sequence (models.py lines 319-373)

The binder keeps `_nodes` and `_title_overrides` side by side; the
`MutableSequence` interface methods mutate both.  The node type is kept
abstract (`α`), matching the fact that the Python sequence operations
never inspect the children. -/

/-- Sequence state of a `TranslucentBinder`: `_nodes` and
`_title_overrides`. -/
structure TBSeq (α : Type) where
  nodes : List α
  titleOverrides : List (Option String)
  deriving DecidableEq, Repr

/-- `TranslucentBinder.__init__` (models.py lines 327-339): with
explicit `title_overrides` the lengths must agree (a `ValueError`
otherwise); without, the overrides are `[None] * len(nodes)`. -/
def TBSeq.init (nodes : List α) (titleOverrides : Option (List (Option String))) :
    Except PyErr (TBSeq α) :=
  match titleOverrides with
  | some tos =>
    if nodes.length ≠ tos.length then
      .error (.valueError "title_overrides should be the same length as nodes.")
    else
      .ok { nodes := nodes, titleOverrides := tos }
  | none => .ok { nodes := nodes, titleOverrides := List.replicate nodes.length none }

/-- `TranslucentBinder.insert(i, v)` (models.py lines 371-373): CPython
`list.insert` clamps an index beyond the end to an append, and the
overrides list receives `None` at the same position. -/
def TBSeq.insert (b : TBSeq α) (i : Nat) (v : α) : TBSeq α :=
  { nodes := b.nodes.insertIdx (min i b.nodes.length) v,
    titleOverrides := b.titleOverrides.insertIdx (min i b.titleOverrides.length) none }

/-- `MutableSequence.append(v)`, which `TranslucentBinder` inherits:
`self.insert(len(self), v)`. -/
def TBSeq.append (b : TBSeq α) (v : α) : TBSeq α :=
  b.insert b.nodes.length v

/-- `TranslucentBinder.__setitem__(i, v)` (models.py lines 361-362):
only `_nodes` is written; an index error leaves the state unchanged,
which `List.set` models by returning the list unmodified out of
range. -/
def TBSeq.setItem (b : TBSeq α) (i : Nat) (v : α) : TBSeq α :=
  { b with nodes := b.nodes.set i v }

/-- `TranslucentBinder.__delitem__(i)` (models.py lines 364-366): both
lists drop position `i`; an index error leaves the state unchanged,
which `List.eraseIdx` models by returning the list unmodified out of
range. -/
def TBSeq.delItem (b : TBSeq α) (i : Nat) : TBSeq α :=
  { nodes := b.nodes.eraseIdx i, titleOverrides := b.titleOverrides.eraseIdx i }

/-- The title-override length invariant of claim C9. -/
def TBSeq.lengthInvariant (b : TBSeq α) : Prop :=
  b.titleOverrides.length = b.nodes.length

/-! ## Person ordering (html_parsers.py, DocumentMetadataParser._parse_person_info)

For each person element the parser computes a sort key: `None` when the
element has no `id` attribute, the string content of the matching
`display-seq` refinement when one exists, and the Python int `0` when
the element has an `id` but the refinement lookup fails.  The keys are
then fed to `sorted(unordered, key=lambda x: x[0])`.  The repository
supports Python 2, whose cross-type comparison orders `None` below
every number and every number below every string; `sorted` is stable.
(Under Python 3 the same mixed-type key list raises `TypeError`; either
way no ordering puts the refined entries first.) -/

/-- A sort key value as produced by `_parse_person_info`. -/
inductive PyKey where
  | pynone
  | pyint (n : Int)
  | pystr (s : String)
  deriving DecidableEq, Repr

/-- Lexicographic comparison of character lists by code point, the
order CPython uses on strings: equal heads recurse, unequal heads
decide, and a proper suffix relation makes the shorter list smaller. -/
def charListLe : List Char → List Char → Bool
  | [], _ => true
  | _ :: _, [] => false
  | a :: as, b :: bs => if a = b then charListLe as bs else decide (a < b)

/-- CPython string comparison (code-point lexicographic). -/
def pyStrLe (a b : String) : Bool :=
  charListLe (chars a) (chars b)

/-- The CPython 2 total order on the key values that occur:
`None < every int < every str`, ints by value, strings by
`pyStrLe`. -/
def pyKeyLe : PyKey → PyKey → Bool
  | .pynone, _ => true
  | .pyint _, .pynone => false
  | .pyint m, .pyint n => m ≤ n
  | .pyint _, .pystr _ => true
  | .pystr _, .pynone => false
  | .pystr _, .pyint _ => false
  | .pystr a, .pystr b => pyStrLe a b

/-- One extracted person record (`{"name": ..., "type": ..., "id": ...}`). -/
structure PersonRec where
  name : Option String := none
  type_ : Option String := none
  id_ : Option String := none
  deriving DecidableEq, Repr

/-- A person element as `_parse_person_info` sees it: its `id`
attribute, the person record resolved from its nested identity link or
its own text, and the `content` of the sibling `display-seq` refinement
whose `refines` target matches the element's id, when such a refinement
exists. -/
structure PersonElm where
  elmId : Option String := none
  person : PersonRec := {}
  refinement : Option String := none
  deriving DecidableEq, Repr

/-- Stable insertion into a `pyKeyLe`-sorted list of key/record pairs:
the new pair goes in front of the first element it is `pyKeyLe`-below
or tied with, reproducing the placement of CPython's stable sort. -/
def pyOrderedInsert (p : PyKey × PersonRec) :
    List (PyKey × PersonRec) → List (PyKey × PersonRec)
  | [] => [p]
  | q :: qs => if pyKeyLe p.1 q.1 then p :: q :: qs else q :: pyOrderedInsert p qs

/-- Stable ascending sort by key, as CPython's `sorted(..., key=...)`. -/
def pySortByKey : List (PyKey × PersonRec) → List (PyKey × PersonRec)
  | [] => []
  | p :: ps => pyOrderedInsert p (pySortByKey ps)

/-- The key computed for one person element (`_parse_person_info`,
html_parsers.py lines 250-259): `order` starts as `None`; only elements
with an `id` attribute look for a refinement, falling back to the int
constant `0` when the lookup raises `IndexError`. -/
def personOrderKey (e : PersonElm) : PyKey :=
  match e.elmId with
  | none => .pynone
  | some _ =>
    match e.refinement with
    | some content => .pystr content
    | none => .pyint 0

/-- The `(order, person)` pair list of `_parse_person_info` after
sorting. -/
def personPairsSorted (elms : List PersonElm) : List (PyKey × PersonRec) :=
  pySortByKey (elms.map (fun e => (personOrderKey e, e.person)))

/-- `DocumentMetadataParser._parse_person_info` (html_parsers.py lines
236-262): collect `(order, person)` pairs, sort them stably by order,
and return the person records. -/
def parsePersonInfo (elms : List PersonElm) : List PersonRec :=
  (personPairsSorted elms).map (fun p => p.2)

/-! ## Metadata extraction (html_parsers.py, DocumentMetadataParser.metadata)

The property getters behind the metadata keys are abstracted as a
lookup `props : String → Option String` (an xpath query either finds a
value or yields `None`); the `metadata` property itself is translated
verbatim: walk the required keyring then the optional keyring, and when
`raise_value_error` is set, a required key whose getter returned `None`
raises `ValueError` — note: the built-in `ValueError`, not
`epub.MissingMetadataError`, which only `epub.OPFParser.metadata`
raises. -/

/-- `DocumentMetadataParser.metadata_required_keys`. -/
def metadataRequiredKeys : List String := ["title", "license_url"]

/-- `DocumentMetadataParser.metadata_optional_keys`. -/
def metadataOptionalKeys : List String :=
  ["created", "revised", "language", "subjects", "keywords",
   "license_text", "editors", "illustrators", "translators",
   "publishers", "copyright_holders", "authors", "summary",
   "cnx-archive-uri", "cnx-archive-shortid", "derived_from_uri",
   "derived_from_title", "print_style", "version"]

/-- The keyring walk of `DocumentMetadataParser.metadata`: each key is
looked up through its property getter; in strict mode a required key
whose getter returned `None` raises
`ValueError("A value for ... could not be found.")`. -/
def docMetadataGo (raiseValueError : Bool) (props : String → Option String) :
    List String → Except PyErr (List (String × Option String))
  | [] => .ok []
  | k :: ks =>
    if raiseValueError ∧ k ∈ metadataRequiredKeys ∧ props k = none then
      .error (.valueError ("A value for " ++ k ++ " could not be found."))
    else
      match docMetadataGo raiseValueError props ks with
      | .ok items => .ok ((k, props k) :: items)
      | .error e => .error e

/-- `DocumentMetadataParser.metadata` (html_parsers.py lines 125-140):
iterate the required keyring then the optional keyring; every key is
stored with whatever its getter returned, `None` included, except that
strict mode aborts on a valueless required key. -/
def docMetadata (raiseValueError : Bool) (props : String → Option String) :
    Except PyErr (List (String × Option String)) :=
  docMetadataGo raiseValueError props (metadataRequiredKeys ++ metadataOptionalKeys)

/-! ## Per-page identifier generation (formatters.py, HTMLFormatter._generate_ids)

A page's content is viewed as the document-order list of its elements;
each element carries an optional `id` attribute, an optional `href`
attribute (anchors), and its text.  `_generate_ids` renames every
element that has an `id` to `auto_<documentId>_<oldId>` where the
document id has `_` stripped, records the old to new mapping, and then
redirects same-page fragment links.  The accumulated `existing_ids`
list is built but never consulted: the synthesized value is assigned
unconditionally, with no collision check and no numeric
disambiguator. -/

/-- One element of a page's content. -/
structure CElem where
  id : Option String := none
  href : Option String := none
  text : String := ""
  deriving DecidableEq, Repr

/-- The synthesized book-wide identifier:
`"auto_{}_{}".format(document_id.replace("_", ""), old_id)`. -/
def autoId (documentId oldId : String) : String :=
  "auto_" ++ pyRemoveChar '_' documentId ++ "_" ++ oldId

/-- The body of step 1 of `_generate_ids` for one element (formatters.py
lines 110-116): an element with an `id` is renamed to the synthesized
identifier. -/
def step1Elem (documentId : String) (e : CElem) : CElem :=
  match e.id with
  | some oldId => { e with id := some (autoId documentId oldId) }
  | none => e

/-- Step 1 of `_generate_ids` over the whole content.  The
`old_id_to_new_id` dict maps each old id to `autoId documentId oldId`,
so membership in it coincides with membership in the list of original
ids. -/
def generateIdsStep1 (documentId : String) (content : List CElem) : List CElem :=
  content.map (step1Elem documentId)

/-- The keys of the `old_id_to_new_id` mapping: the original ids. -/
def originalIds (content : List CElem) : List String :=
  content.filterMap (fun e => e.id)

/-- The body of step 2 of `_generate_ids` for one anchor (formatters.py
lines 118-123): an anchor whose `href` is `#old` with `old` a key of
the mapping is redirected to `#auto_...`. -/
def step2Elem (documentId : String) (oldIds : List String) (e : CElem) : CElem :=
  match e.href with
  | some h =>
    if pyStartsWith "#" h ∧ (pyDrop 1 h) ∈ oldIds then
      { e with href := some ("#" ++ autoId documentId (pyDrop 1 h)) }
    else e
  | none => e

/-- Step 2 of `_generate_ids` over the whole content. -/
def generateIdsStep2 (documentId : String) (oldIds : List String)
    (content : List CElem) : List CElem :=
  content.map (step2Elem documentId oldIds)

/-- `HTMLFormatter._generate_ids` (formatters.py lines 100-123). -/
def generateIds (documentId : String) (content : List CElem) : List CElem :=
  generateIdsStep2 documentId (originalIds content) (generateIdsStep1 documentId content)

/-- The person metadata a node's rendered metadata block depends on
(the lists the `HTML_DOCUMENT` template iterates, formatters.py lines
687-864): the number of authors (each author `span` carries
`id="author-<loop.index>"` unconditionally), and for the other roles
one flag per entry recording whether it is a dict (only dict entries
get an `id="<role>-<loop.index>"`; `loop.index` counts every entry,
1-based).  `hasLicenseUrl` gates the permissions block (the template's
other gate, the `copyright-holder` metadata key, is never set by this
codebase). -/
structure PageMetaIds where
  authors : Nat := 0
  editors : List Bool := []
  illustrators : List Bool := []
  translators : List Bool := []
  publishers : List Bool := []
  copyrightHolders : List Bool := []
  hasLicenseUrl : Bool := false
  deriving DecidableEq

/-- The `<role>-<loop.index>` ids of one person loop of the template,
starting at index `i`: an id exactly for the dict entries. -/
def personIdsGo (role : String) (i : Nat) : List Bool → List String
  | [] => []
  | b :: bs => (if b then [role ++ "-" ++ natStr i] else []) ++ personIdsGo role (i + 1) bs

/-- The ids of one person loop, `loop.index` 1-based. -/
def personIds (role : String) (flags : List Bool) : List String :=
  personIdsGo role 1 flags

/-- The author ids `author-1 .. author-n`: every author entry gets
one. -/
def authorIds (n : Nat) : List String :=
  personIds "author" (List.replicate n true)

/-- The element ids of one rendered metadata block (the
`HTML_DOCUMENT` template, formatters.py lines 687-864): the authors
div (with the editor/illustrator/translator loops inside it) is
emitted only when the authors list is truthy, the publishers div when
the publishers list is truthy, and the copyright-holder loop sits
inside the permissions block behind its own truthiness gate.  These
ids are fixed per role and position — `_generate_ids` runs on the
page's content before templating and never renames them. -/
def metaBlockIds (me : PageMetaIds) : List String :=
  (if me.authors ≠ 0 then
     authorIds me.authors ++ personIds "editor" me.editors ++
       personIds "illustrator" me.illustrators ++ personIds "translator" me.translators
   else []) ++
  (if me.publishers ≠ [] then personIds "publisher" me.publishers else []) ++
  (if me.hasLicenseUrl then
     (if me.copyrightHolders ≠ [] then personIds "copyright-holder" me.copyrightHolders
      else [])
   else [])

/-- The element identifiers one page contributes to the flattened
document, in document order: its structural wrapper id `page_<id>`
(page ids are prefixed when they do not already start with `page_`),
then its metadata-block ids — copied in unrenamed by `_build_binder`,
which appends every body child of the rendered page, the
`data-type="metadata"` div included — then the ids inside its content
after `_generate_ids`. -/
def singleHTMLPageIds (p : String × PageMetaIds × List CElem) : List String :=
  (if pyStartsWith "page_" p.1 then p.1 else "page_" ++ p.1) ::
    (metaBlockIds p.2.1 ++ originalIds (generateIds p.1 p.2.2))

/-- The element identifiers of the flattened document of a flat binder
of pages, as assembled by `SingleHTMLFormatter` (formatters.py lines
180-253): the book-level metadata-block ids, the navigation block's
fixed `toc` id (`tree_to_html`, formatters.py line 936), then each
page's wrapper, metadata-block and content ids. -/
def singleHTMLAllIds (bookMeta : PageMetaIds)
    (pages : List (String × PageMetaIds × List CElem)) : List String :=
  metaBlockIds bookMeta ++ "toc" :: pages.flatMap singleHTMLPageIds

/-! ## Intra-binder link rewriting (formatters.py, SingleHTMLFormatter.build)

After the binder is built, `build` collects
`page_uuids = {id.split("@")[0]: id for id in page_ids}` over the
binder's documents and rewrites every `href` that starts with
`/contents/`: the target uuid is `re.split("@|#", href[10:])[0]`; when
it is a key of `page_uuids`, an href with a fragment becomes
`#auto_<id><fragment with # replaced by _>` and one without becomes
`#page_<id>`; otherwise the href is left untouched. -/

/-- Dictionary lookup with CPython comprehension semantics: a later
binding for the same key overwrites an earlier one. -/
def pyDictLookup (pairs : List (String × String)) (key : String) : Option String :=
  (pairs.reverse.find? (fun p => p.1 = key)).map (fun p => p.2)

/-- The `page_uuids` dictionary built in `build` from the documents'
ids. -/
def pageUuidPairs (pageIds : List String) : List (String × String) :=
  pageIds.map (fun id => ((pySplitChar '@' id).headD "", id))

/-- The rewriting `build` applies to one `href` value (formatters.py
lines 271-284). -/
def rewriteContentsHref (pageUuids : List (String × String)) (href : String) : String :=
  if pyStartsWith "/contents/" href then
    let linkUuid := pyTakeUntilAtHash (pyDrop 10 href)
    match pyDictLookup pageUuids linkUuid with
    | some id =>
      if pyContainsChar '#' href then
        "#auto_" ++ id ++ pyReplaceChar1 '#' '_' (pyFromHash href)
      else
        "#page_" ++ id
    | none => href
  else href

/-! ## Helper lemmas about the string primitives -/

theorem chars_append (a b : String) : chars (a ++ b) = chars a ++ chars b := rfl

theorem ofChars_chars (s : String) : ofChars (chars s) = s := rfl

theorem pyContainsChar_iff {c : Char} {s : String} :
    pyContainsChar c s = true ↔ c ∈ chars s := by
  simp [pyContainsChar, List.contains_iff_exists_mem_beq, beq_iff_eq]

theorem pySplitCharAux_no_sep (sep : Char) (acc l : List Char) (h : sep ∉ l) :
    pySplitCharAux sep acc l = [ofChars (acc.reverse ++ l)] := by
  induction l generalizing acc with
  | nil => simp [pySplitCharAux]
  | cons c cs ih =>
    have hcs : sep ∉ cs := fun hm => h (List.mem_cons_of_mem _ hm)
    have hc : ¬ c = sep := fun he => h (he ▸ List.mem_cons_self _ _)
    simp only [pySplitCharAux, if_neg hc, ih _ hcs]
    simp

theorem pySplitCharAux_append_sep (sep : Char) (acc l1 l2 : List Char) (h : sep ∉ l1) :
    pySplitCharAux sep acc (l1 ++ sep :: l2) =
      ofChars (acc.reverse ++ l1) :: pySplitCharAux sep [] l2 := by
  induction l1 generalizing acc with
  | nil => simp [pySplitCharAux]
  | cons c cs ih =>
    have hcs : sep ∉ cs := fun hm => h (List.mem_cons_of_mem _ hm)
    have hc : ¬ c = sep := fun he => h (he ▸ List.mem_cons_self _ _)
    simp only [List.cons_append, pySplitCharAux, if_neg hc, List.append_eq]
    rw [ih (c :: acc) hcs]
    simp

theorem chars_around_at (a v : String) :
    chars (a ++ "@" ++ v) = chars a ++ '@' :: chars v := by
  have h0 : chars "@" = ['@'] := rfl
  simp [chars_append, h0]

theorem pySplitChar_single_sep (a v : String)
    (ha : ¬ pyContainsChar '@' a = true) (hv : ¬ pyContainsChar '@' v = true) :
    pySplitChar '@' (a ++ "@" ++ v) = [a, v] := by
  have ha' : '@' ∉ chars a := fun hm => ha (pyContainsChar_iff.2 hm)
  have hv' : '@' ∉ chars v := fun hm => hv (pyContainsChar_iff.2 hm)
  rw [pySplitChar, chars_around_at, pySplitCharAux_append_sep _ _ _ _ ha',
      pySplitCharAux_no_sep _ _ _ hv']
  simp [ofChars_chars]

theorem pySplitCharAux_length (sep : Char) (acc l : List Char) :
    (pySplitCharAux sep acc l).length = l.count sep + 1 := by
  induction l generalizing acc with
  | nil => simp [pySplitCharAux]
  | cons c cs ih =>
    by_cases hc : c = sep
    · subst hc; simp [pySplitCharAux, ih, List.count_cons]
    · simp [pySplitCharAux, if_neg hc, ih, List.count_cons, hc]

theorem pySplitChar_length (sep : Char) (s : String) :
    (pySplitChar sep s).length = (chars s).count sep + 1 :=
  pySplitCharAux_length sep [] (chars s)

/-! ## Claim C7 — id assignment with an embedded version separator -/

/-- Claim C7, counterexample: the claim asserts that assigning the id
string `"a@b@c"` splits once on the first `@` into id `"a"` and version
`"b@c"`; in the code `value.split("@")` yields three fields and the
two-target unpacking raises `ValueError`, so no assignment happens at
all. -/
theorem binder_setId_two_seps_counterexample :
    BinderId.setId {} (some "a@b@c") = .error (.valueError "too many values to unpack") ∧
    DocumentId.setId {} (some "a@b@c") = .error (.valueError "too many values to unpack") := by
  constructor <;> rfl

/-- Claim C7, amended: assigning an id string containing exactly one
`@` splits it there into the id field and the version metadata field;
a string containing two or more `@` raises `ValueError` (too many
values to unpack) and assigns nothing; a string without `@` (or a
falsy value) sets the id field alone and leaves the version untouched.
This holds for both `Document.id` and `Binder.id`. -/
theorem id_setter_version_split
    (b : BinderId) (d : DocumentId) (a v s : String) :
    (¬ pyContainsChar '@' a = true → ¬ pyContainsChar '@' v = true →
      b.setId (some (a ++ "@" ++ v)) =
        .ok { b with _id := some a,
                     metadata := { b.metadata with version := some v } } ∧
      d.setId (some (a ++ "@" ++ v)) =
        .ok { d with _id := some a,
                     metadata := { d.metadata with version := some v } }) ∧
    (2 ≤ (chars s).count '@' →
      b.setId (some s) = .error (.valueError "too many values to unpack") ∧
      d.setId (some s) = .error (.valueError "too many values to unpack")) ∧
    (¬ pyContainsChar '@' s = true →
      b.setId (some s) = .ok { b with _id := some s } ∧
      d.setId (some s) = .ok { d with _id := some s }) := by
  have hone : ∀ a v : String, ¬ pyContainsChar '@' a = true → ¬ pyContainsChar '@' v = true →
      modelIdSetter (some (a ++ "@" ++ v)) = .ok { newId := some a, newVersion := some v } := by
    intro a v ha hv
    have hcontains : pyContainsChar '@' (a ++ "@" ++ v) = true := by
      refine pyContainsChar_iff.2 ?_
      rw [chars_around_at]
      exact List.mem_append_right _ (List.mem_cons_self _ _)
    have htruthy : pyTruthy (some (a ++ "@" ++ v)) = true := by
      rw [show pyTruthy (some (a ++ "@" ++ v)) = decide (a ++ "@" ++ v ≠ "") from rfl,
          decide_eq_true_iff]
      intro h
      have h2 := congrArg chars h
      rw [chars_around_at] at h2
      rw [show chars "" = [] from rfl] at h2
      simp at h2
    simp only [modelIdSetter, Option.getD_some]
    rw [if_pos ⟨htruthy, hcontains⟩, pySplitChar_single_sep a v ha hv]
  have hmany : ∀ s : String, 2 ≤ (chars s).count '@' →
      modelIdSetter (some s) = .error (.valueError "too many values to unpack") := by
    intro s hs
    have hcontains : pyContainsChar '@' s = true := by
      refine pyContainsChar_iff.2 (List.count_pos_iff.1 ?_)
      omega
    have htruthy : pyTruthy (some s) = true := by
      rw [show pyTruthy (some s) = decide (s ≠ "") from rfl, decide_eq_true_iff]
      intro h
      subst h
      rw [show chars "" = [] from rfl] at hs
      simp at hs
    have hlen : 3 ≤ (pySplitChar '@' s).length := by
      rw [pySplitChar_length]; omega
    obtain ⟨x, y, z, rest, hsp⟩ :
        ∃ x y z rest, pySplitChar '@' s = x :: y :: z :: rest := by
      rcases h1 : pySplitChar '@' s with _ | ⟨x, _ | ⟨y, _ | ⟨z, rest⟩⟩⟩ <;>
        rw [h1] at hlen
      · simp at hlen
      · simp at hlen
      · simp at hlen
      · exact ⟨x, y, z, rest, rfl⟩
    simp only [modelIdSetter, Option.getD_some]
    rw [if_pos ⟨htruthy, hcontains⟩, hsp]
  have hnone : ∀ s : String, ¬ pyContainsChar '@' s = true →
      modelIdSetter (some s) = .ok { newId := some s, newVersion := none } := by
    intro s hs
    simp only [modelIdSetter, Option.getD_some]
    rw [if_neg]
    intro hand
    exact hs hand.2
  refine ⟨fun ha hv => ?_, fun hs => ?_, fun hs => ?_⟩
  · rw [BinderId.setId, DocumentId.setId, hone a v ha hv]
    exact ⟨rfl, rfl⟩
  · rw [BinderId.setId, DocumentId.setId, hmany s hs]
    exact ⟨rfl, rfl⟩
  · rw [BinderId.setId, DocumentId.setId, hnone s hs]
    exact ⟨rfl, rfl⟩

/-- Claim C7, witness: the amended theorem evaluated at concrete
inputs. -/
theorem id_setter_version_split_witness :
    BinderId.setId {} (some ("x" ++ "@" ++ "3")) =
      .ok { _id := some "x", metadata := { version := some "3" } } ∧
    DocumentId.setId {} (some "plain") = .ok { _id := some "plain" } := by
  refine ⟨((id_setter_version_split {} {} "x" "3" "plain").1 ?_ ?_).1,
          ((id_setter_version_split {} {} "x" "3" "plain").2.2 ?_).2⟩
  · decide
  · decide
  · decide

/-! ## Claim C10 — reserved translucent identifier and ident_hash -/

/-- Claim C10: a `Binder` whose id is the reserved translucent
identifier `"subcol"` has `ident_hash` `None` even though it carries a
non-null id; every `Binder` whose id is neither `None` nor `"subcol"`
has `ident_hash` equal to the id alone when the metadata holds no
version and to `id ++ "@" ++ version` otherwise. -/
theorem binder_ident_hash_subcol_reserved (b : BinderId) (id : String) :
    (b._id = some TRANSLUCENT_BINDER_ID → b.identHash = none) ∧
    (b._id = some id → id ≠ TRANSLUCENT_BINDER_ID →
      b.identHash = some (match b.metadata.version with
                          | some v => id ++ "@" ++ v
                          | none => id)) := by
  constructor
  · intro h
    simp [BinderId.identHash, h]
  · intro h hne
    rw [BinderId.identHash, if_pos]
    · cases hv : b.metadata.version <;> simp [h]
    · simp [h, hne]

/-- Claim C10, witness: evaluations at a reserved binder, an unversioned
binder and a versioned binder. -/
theorem binder_ident_hash_subcol_reserved_witness :
    BinderId.identHash { _id := some "subcol" } = none ∧
    BinderId.identHash { _id := some "b1" } = some "b1" ∧
    BinderId.identHash { _id := some "b1", metadata := { version := some "2" } } =
      some ("b1" ++ "@" ++ "2") := by
  refine ⟨(binder_ident_hash_subcol_reserved { _id := some "subcol" } "subcol").1 rfl,
          ?_, ?_⟩
  · exact (binder_ident_hash_subcol_reserved { _id := some "b1" } "b1").2 rfl (by decide)
  · exact (binder_ident_hash_subcol_reserved
      { _id := some "b1", metadata := { version := some "2" } } "b1").2 rfl (by decide)

/-! ## Claim C6 — bound references stay in sync with their target -/

/-- Claim C6: binding a model with id `r1` to a reference through the
template `"../resources/{}"` makes the reference's uri read
`"../resources/r1"`; when the bound model's id becomes `r2` with the
binding still active, the uri reads `"../resources/r2"`; in general the
uri read from a bound reference is always the template applied to the
target's current id. -/
theorem reference_bind_uri_sync (r : ReferenceS) (t targetId : String) :
    (((r.bind "r1" "../resources/{}").getUri "r1").1 = "../resources/r1" ∧
     ((r.bind "r1" "../resources/{}").getUri "r2").1 = "../resources/r2") ∧
    (r.uriTemplate = some t → (r.getUri targetId).1 = pyFormat1 t targetId) := by
  constructor
  · exact ⟨rfl, rfl⟩
  · intro h
    simp [ReferenceS.getUri, ReferenceS.isBound, ReferenceS.setUriFromBoundModel, h]

/-- Claim C6, witness: the invariant applied to a concrete bound
reference. -/
theorem reference_bind_uri_sync_witness :
    (({ elmUri := "old", uriTemplate := some "pre-{}" } : ReferenceS).getUri "id9").1 =
      pyFormat1 "pre-{}" "id9" :=
  (reference_bind_uri_sync { elmUri := "old", uriTemplate := some "pre-{}" }
    "pre-{}" "id9").2 rfl

/-! ## Claim C5 — navigation cardinality of a package -/

theorem get_q_indexOf_self {α : Type} [DecidableEq α] {a : α} :
    ∀ {l : List α}, a ∈ l → l.get? (l.indexOf a) = some a := by
  intro l
  induction l with
  | nil => intro h; cases h
  | cons b bs ih =>
    intro h
    by_cases hab : a = b
    · subst hab
      rw [List.indexOf_cons_self]
      rfl
    · have hmem : a ∈ bs := by
        rcases List.mem_cons.1 h with h1 | h1
        · exact absurd h1 hab
        · exact h1
      have hidx : (b :: bs).indexOf a = bs.indexOf a + 1 := by
        simp [List.indexOf_cons, Ne.symm hab]
      rw [hidx]
      simpa using ih hmem

/-- Claim C5: constructing a `Package` from an item list with zero
navigation-flagged items raises `MissingNavigationError`; with two or
more it raises `AdditionalNavigationError`; with exactly one it
succeeds, keeping the item list and making that item the package's
navigation item.  Both error cases produce no package value. -/
theorem package_navigation_cardinality (name : String) (items : List ItemS) (nav : ItemS) :
    ((items.filter (fun i => i.isNavigation)).length = 0 →
      PackageS.init name items = .error (.missingNavigationError "Navigation item not found")) ∧
    (2 ≤ (items.filter (fun i => i.isNavigation)).length →
      PackageS.init name items =
        .error (.additionalNavigationError "Only one navigation item can exist per package.")) ∧
    (items.filter (fun i => i.isNavigation) = [nav] →
      ∃ p, PackageS.init name items = .ok p ∧ p.navigation = some nav ∧
        p.items = items ∧ p.name = name) := by
  refine ⟨fun h0 => ?_, fun h2 => ?_, fun h1 => ?_⟩
  · simp [PackageS.init, h0]
  · simp only [PackageS.init]
    rw [if_neg (by omega), if_pos (by omega)]
  · have hmem : nav ∈ items := List.mem_of_mem_filter (h1 ▸ List.mem_singleton.2 rfl)
    have hlen : (items.filter (fun i => i.isNavigation)).length = 1 := by rw [h1]; rfl
    refine ⟨{ name := name, items := items, navigationItemIndex := items.indexOf nav },
      ?_, ?_, rfl, rfl⟩
    · simp only [PackageS.init]
      rw [if_neg (by omega), if_neg (by omega), h1]
      rfl
    · exact get_q_indexOf_self hmem

/-- Claim C5, witness: the three cardinalities at concrete item
lists. -/
theorem package_navigation_cardinality_witness :
    PackageS.init "book.opf" ([] : List ItemS) =
      .error (.missingNavigationError "Navigation item not found") ∧
    PackageS.init "book.opf" [⟨"n1", true⟩, ⟨"n2", true⟩] =
      .error (.additionalNavigationError "Only one navigation item can exist per package.") ∧
    (∃ p, PackageS.init "book.opf" [⟨"c", false⟩, ⟨"nav", true⟩] = .ok p ∧
      p.navigation = some ⟨"nav", true⟩ ∧ p.items = [⟨"c", false⟩, ⟨"nav", true⟩] ∧
      p.name = "book.opf") :=
  ⟨(package_navigation_cardinality "book.opf" [] ⟨"nav", true⟩).1 (by decide),
   (package_navigation_cardinality "book.opf" [⟨"n1", true⟩, ⟨"n2", true⟩]
     ⟨"nav", true⟩).2.1 (by decide),
   (package_navigation_cardinality "book.opf" [⟨"c", false⟩, ⟨"nav", true⟩]
     ⟨"nav", true⟩).2.2 (by decide)⟩

/-! ## Claim C9 — the title-override length invariant -/

/-- Claim C9: for every `TranslucentBinder` (and hence `Binder`), the
title-override sequence always has the same length as the child
sequence: construction establishes it (a mismatched explicit override
list is rejected with `ValueError`), and insertion, appending, item
replacement and deletion all preserve it. -/
theorem title_override_length_invariant {α : Type} (nodes : List α)
    (tos : List (Option String)) (t : Option (List (Option String)))
    (b0 b : TBSeq α) (i : Nat) (v : α) :
    (TBSeq.init nodes t = .ok b → b.lengthInvariant) ∧
    (nodes.length ≠ tos.length →
      TBSeq.init nodes (some tos) =
        .error (.valueError "title_overrides should be the same length as nodes.")) ∧
    (b0.lengthInvariant →
      (b0.insert i v).lengthInvariant ∧ (b0.append v).lengthInvariant ∧
      (b0.setItem i v).lengthInvariant ∧ (b0.delItem i).lengthInvariant) := by
  refine ⟨fun h => ?_, fun hne => ?_, fun hinv => ?_⟩
  · cases t with
    | none =>
      simp only [TBSeq.init] at h
      injection h with h
      subst h
      simp [TBSeq.lengthInvariant]
    | some tos2 =>
      simp only [TBSeq.init] at h
      by_cases hlen : nodes.length ≠ tos2.length
      · rw [if_pos hlen] at h; cases h
      · rw [if_neg hlen] at h
        injection h with h
        subst h
        simp only [TBSeq.lengthInvariant]
        omega
  · simp only [TBSeq.init]
    rw [if_pos hne]
  · have hinv2 : b0.titleOverrides.length = b0.nodes.length := hinv
    have hins : ∀ j : Nat, (b0.insert j v).lengthInvariant := by
      intro j
      simp only [TBSeq.insert, TBSeq.lengthInvariant]
      rw [List.length_insertIdx _ _ (min_le_right _ _),
          List.length_insertIdx _ _ (min_le_right _ _), hinv2]
    refine ⟨hins i, hins _, ?_, ?_⟩
    · simp only [TBSeq.setItem, TBSeq.lengthInvariant, List.length_set]
      exact hinv2
    · simp only [TBSeq.delItem, TBSeq.lengthInvariant]
      by_cases hi : i < b0.nodes.length
      · rw [List.length_eraseIdx_of_lt hi, List.length_eraseIdx_of_lt (hinv2 ▸ hi), hinv2]
      · rw [List.eraseIdx_of_length_le (by omega), List.eraseIdx_of_length_le (by omega)]
        exact hinv2

/-- Claim C9, witness: construction and each sequence operation checked
at concrete binders. -/
theorem title_override_length_invariant_witness :
    (TBSeq.init [1, 2] (some [none, some "t"]) = .ok ⟨[1, 2], [none, some "t"]⟩ →
      (⟨[1, 2], [none, some "t"]⟩ : TBSeq Nat).lengthInvariant) ∧
    ((⟨[1, 2], [none, some "t"]⟩ : TBSeq Nat).delItem 0).lengthInvariant ∧
    ((⟨[1, 2], [none, some "t"]⟩ : TBSeq Nat).insert 5 9).lengthInvariant ∧
    TBSeq.init ([1] : List Nat) (some []) =
      .error (.valueError "title_overrides should be the same length as nodes.") := by
  have h := title_override_length_invariant [1, 2] [] (some [none, some "t"])
    (⟨[1, 2], [none, some "t"]⟩ : TBSeq Nat) ⟨[1, 2], [none, some "t"]⟩ 0 9
  have h5 := title_override_length_invariant [1, 2] [] (some [none, some "t"])
    (⟨[1, 2], [none, some "t"]⟩ : TBSeq Nat) ⟨[1, 2], [none, some "t"]⟩ 5 9
  have h1 := title_override_length_invariant ([1] : List Nat) [] (some [none, some "t"])
    (⟨[1, 2], [none, some "t"]⟩ : TBSeq Nat) ⟨[1, 2], [none, some "t"]⟩ 0 9
  exact ⟨h.1, (h.2.2 rfl).2.2.2, (h5.2.2 rfl).1, h1.2.1 (by decide)⟩

/-! ## Claim C3 — person ordering -/

theorem charListLe_total : ∀ x y : List Char, charListLe x y = true ∨ charListLe y x = true
  | [], _ => Or.inl rfl
  | _ :: _, [] => Or.inr rfl
  | a :: as, b :: bs => by
    by_cases hab : a = b
    · subst hab
      rcases charListLe_total as bs with h | h
      · exact Or.inl (by simp [charListLe, h])
      · exact Or.inr (by simp [charListLe, h])
    · rcases lt_or_gt_of_ne hab with h | h
      · exact Or.inl (by simp [charListLe, hab, h])
      · exact Or.inr (by simp [charListLe, Ne.symm hab, h])

theorem charListLe_trans :
    ∀ x y z : List Char, charListLe x y = true → charListLe y z = true →
      charListLe x z = true
  | [], _, _, _, _ => rfl
  | a :: as, [], _, h1, _ => by simp [charListLe] at h1
  | a :: as, b :: bs, [], _, h2 => by simp [charListLe] at h2
  | a :: as, b :: bs, c :: cs, h1, h2 => by
    simp only [charListLe] at h1 h2 ⊢
    by_cases hab : a = b
    · subst hab
      rw [if_pos rfl] at h1
      by_cases hbc : a = c
      · subst hbc
        rw [if_pos rfl] at h2 ⊢
        exact charListLe_trans as bs cs h1 h2
      · rw [if_neg hbc] at h2 ⊢
        exact h2
    · rw [if_neg hab, decide_eq_true_iff] at h1
      by_cases hbc : b = c
      · subst hbc
        rw [if_neg hab, decide_eq_true_iff]
        exact h1
      · rw [if_neg hbc, decide_eq_true_iff] at h2
        have hac : a < c := lt_trans h1 h2
        rw [if_neg (ne_of_lt hac), decide_eq_true_iff]
        exact hac

theorem pyKeyLe_total : ∀ x y : PyKey, pyKeyLe x y = true ∨ pyKeyLe y x = true := by
  intro x y
  cases x <;> cases y <;> simp [pyKeyLe, pyStrLe]
  · exact Int.le_total _ _
  · exact charListLe_total _ _

theorem pyKeyLe_trans :
    ∀ {x y z : PyKey}, pyKeyLe x y = true → pyKeyLe y z = true → pyKeyLe x z = true := by
  intro x y z h1 h2
  cases x <;> cases y <;> cases z <;> simp_all [pyKeyLe, pyStrLe]
  · exact le_trans h1 h2
  · exact charListLe_trans _ _ _ h1 h2

/-- The ordering relation on the `(order, person)` pairs, as a
proposition. -/
def keyRel (a b : PyKey × PersonRec) : Prop := pyKeyLe a.1 b.1 = true

theorem mem_pyOrderedInsert {p q : PyKey × PersonRec} :
    ∀ {l : List (PyKey × PersonRec)}, q ∈ pyOrderedInsert p l → q = p ∨ q ∈ l := by
  intro l
  induction l with
  | nil => intro h; simpa [pyOrderedInsert] using h
  | cons r rs ih =>
    intro h
    simp only [pyOrderedInsert] at h
    by_cases hc : pyKeyLe p.1 r.1 = true
    · rw [if_pos hc] at h
      rcases List.mem_cons.1 h with h | h
      · exact Or.inl h
      · exact Or.inr h
    · rw [if_neg hc] at h
      rcases List.mem_cons.1 h with h | h
      · exact Or.inr (h ▸ List.mem_cons_self _ _)
      · rcases ih h with h | h
        · exact Or.inl h
        · exact Or.inr (List.mem_cons_of_mem _ h)

theorem pairwise_pyOrderedInsert (p : PyKey × PersonRec) :
    ∀ l, l.Pairwise keyRel → (pyOrderedInsert p l).Pairwise keyRel := by
  intro l
  induction l with
  | nil => intro _; exact List.pairwise_singleton _ _
  | cons q qs ih =>
    intro h
    rcases List.pairwise_cons.1 h with ⟨hq, hqs⟩
    simp only [pyOrderedInsert]
    by_cases hc : pyKeyLe p.1 q.1 = true
    · rw [if_pos hc]
      refine List.pairwise_cons.2 ⟨?_, h⟩
      intro r hr
      rcases List.mem_cons.1 hr with rfl | hr
      · exact hc
      · exact pyKeyLe_trans hc (hq r hr)
    · rw [if_neg hc]
      refine List.pairwise_cons.2 ⟨?_, ih hqs⟩
      intro r hr
      rcases mem_pyOrderedInsert hr with rfl | hr
      · rcases pyKeyLe_total r.1 q.1 with hpq | hqp
        · exact absurd hpq hc
        · exact hqp
      · exact hq r hr

theorem pairwise_pySortByKey : ∀ l, (pySortByKey l).Pairwise keyRel := by
  intro l
  induction l with
  | nil => exact List.Pairwise.nil
  | cons p ps ih => exact pairwise_pyOrderedInsert p _ ih

/-- Claim C3, counterexample: for person elements with display-sequence
refinements `["3", missing, "1"]` (all three elements carrying local
ids), the claim asserts the extracted order `[value 1, value 3,
unrefined]`; the code sorts the unrefined entry (whose key is the int
`0`, below every refinement string in the CPython 2 cross-type order)
in front, yielding `[unrefined, value 1, value 3]`. -/
theorem person_ordering_counterexample :
    parsePersonInfo
        [{ elmId := some "a1", person := { name := some "Three" }, refinement := some "3" },
         { elmId := some "a2", person := { name := some "NoRef" } },
         { elmId := some "a3", person := { name := some "One" }, refinement := some "1" }] ≠
      [{ name := some "One" }, { name := some "Three" }, { name := some "NoRef" }] := by
  decide

/-- Claim C3, amended: entries are sorted ascending by the
display-sequence key, stably, but an entry lacking a refinement is
treated as *less than* every refined entry (its key is the int `0`,
which the code's comparison places below every refinement string), not
greater; for refinements `[3, missing, 1]` the extracted order is
`[unrefined, value 1, value 3]`.  (Under Python 3 the same mixed-type
keys make `sorted` raise `TypeError`; under no interpreter is the
claimed order produced.) -/
theorem person_ordering_unrefined_first :
    parsePersonInfo
        [{ elmId := some "a1", person := { name := some "Three" }, refinement := some "3" },
         { elmId := some "a2", person := { name := some "NoRef" } },
         { elmId := some "a3", person := { name := some "One" }, refinement := some "1" }] =
      [{ name := some "NoRef" }, { name := some "One" }, { name := some "Three" }] ∧
    (∀ elms : List PersonElm, (personPairsSorted elms).Pairwise keyRel) :=
  ⟨by decide, fun _ => pairwise_pySortByKey _⟩

/-! ## Claim C8 — missing required metadata -/

theorem docMetadataGo_lenient (props : String → Option String) :
    ∀ ks, docMetadataGo false props ks = .ok (ks.map (fun k => (k, props k))) := by
  intro ks
  induction ks with
  | nil => rfl
  | cons k ks ih => simp [docMetadataGo, ih]

/-- Claim C8, counterexample: extracting metadata with every property
absent in strict mode raises the built-in `ValueError`, not
`epub.MissingMetadataError` as the claim states (only the OPF package
metadata parser raises the latter). -/
theorem metadata_error_class_counterexample :
    docMetadata true (fun _ => none) =
      .error (.valueError ("A value for " ++ "title" ++ " could not be found.")) ∧
    docMetadata true (fun _ => none) ≠
      .error (.missingMetadataError ("A value for " ++ "title" ++ " could not be found.")) := by
  constructor
  · rfl
  · intro h
    rw [show docMetadata true (fun _ => none) =
        .error (.valueError ("A value for " ++ "title" ++ " could not be found.")) from rfl] at h
    injection h with h2
    exact PyErr.noConfusion h2

/-- Claim C8, amended: extraction of an absent required field fails with
`ValueError` (not `MissingMetadataError`) unless the extractor was
constructed with `raise_value_error` disabled, in which case extraction
succeeds and every field — the missing one included — is reported with
exactly the value its getter produced (`None` for the missing one). -/
theorem metadata_required_missing_is_value_error (props : String → Option String) :
    ((props "title" = none ∨ props "license_url" = none) →
      ∃ k, k ∈ metadataRequiredKeys ∧ props k = none ∧
        docMetadata true props =
          .error (.valueError ("A value for " ++ k ++ " could not be found."))) ∧
    docMetadata false props =
      .ok ((metadataRequiredKeys ++ metadataOptionalKeys).map (fun k => (k, props k))) := by
  constructor
  · intro hmiss
    rcases ht : props "title" with _ | t
    · refine ⟨"title", by decide, ht, ?_⟩
      show docMetadataGo true props ("title" :: "license_url" :: metadataOptionalKeys) = _
      rw [docMetadataGo, if_pos ⟨rfl, by decide, ht⟩]
    · have hl : props "license_url" = none := by
        rcases hmiss with h | h
        · rw [ht] at h; cases h
        · exact h
      refine ⟨"license_url", by decide, hl, ?_⟩
      show docMetadataGo true props ("title" :: "license_url" :: metadataOptionalKeys) = _
      rw [docMetadataGo, if_neg (by simp [ht]), docMetadataGo, if_pos ⟨rfl, by decide, hl⟩]
  · exact docMetadataGo_lenient props _

/-- Claim C8, witness: the strict and lenient modes evaluated at a
getter with no values at all. -/
theorem metadata_required_missing_is_value_error_witness :
    (∃ k, k ∈ metadataRequiredKeys ∧ (fun _ : String => (none : Option String)) k = none ∧
      docMetadata true (fun _ => none) =
        .error (.valueError ("A value for " ++ k ++ " could not be found."))) ∧
    docMetadata false (fun _ => none) =
      .ok ((metadataRequiredKeys ++ metadataOptionalKeys).map
        (fun k => (k, (none : Option String)))) :=
  ⟨(metadata_required_missing_is_value_error (fun _ => none)).1 (Or.inl rfl),
   (metadata_required_missing_is_value_error (fun _ => none)).2⟩

/-! ## Claim C2 — identifier generation and uniqueness -/

theorem step1Elem_id (d : String) (e : CElem) :
    (step1Elem d e).id = e.id.map (autoId d) := by
  cases e with
  | mk i h t => cases i <;> rfl

theorem step2Elem_id (d : String) (olds : List String) (e : CElem) :
    (step2Elem d olds e).id = e.id := by
  cases e with
  | mk i h t =>
    cases h with
    | none => rfl
    | some h0 =>
      simp only [step2Elem]
      split <;> rfl

theorem originalIds_step1 (d : String) (content : List CElem) :
    originalIds (generateIdsStep1 d content) = (originalIds content).map (autoId d) := by
  induction content with
  | nil => rfl
  | cons e es ih =>
    simp only [originalIds, generateIdsStep1, List.map_cons, List.filterMap_cons,
      step1Elem_id] at ih ⊢
    cases e.id <;> simp [ih]

theorem originalIds_step2 (d : String) (olds : List String) (content : List CElem) :
    originalIds (generateIdsStep2 d olds content) = originalIds content := by
  induction content with
  | nil => rfl
  | cons e es ih =>
    simp only [originalIds, generateIdsStep2, List.map_cons, List.filterMap_cons,
      step2Elem_id] at ih ⊢
    cases e.id <;> simp [ih]

theorem originalIds_generateIds (d : String) (content : List CElem) :
    originalIds (generateIds d content) = (originalIds content).map (autoId d) := by
  rw [generateIds, originalIds_step2, originalIds_step1]

theorem no_underscore_strip (d : String) : '_' ∉ chars (pyRemoveChar '_' d) := by
  intro h
  have := List.of_mem_filter h
  simp at this

theorem append_underscore_inj :
    ∀ (d1 d2 x y : List Char), '_' ∉ d1 → '_' ∉ d2 →
      d1 ++ '_' :: x = d2 ++ '_' :: y → d1 = d2 ∧ x = y := by
  intro d1
  induction d1 with
  | nil =>
    intro d2 x y _ h2 h
    cases d2 with
    | nil => simpa using h
    | cons b bs =>
      simp only [List.nil_append, List.cons_append, List.cons.injEq] at h
      exact absurd (h.1 ▸ List.mem_cons_self _ _) h2
  | cons a as ih =>
    intro d2 x y h1 h2 h
    cases d2 with
    | nil =>
      simp only [List.nil_append, List.cons_append, List.cons.injEq] at h
      exact absurd (h.1.symm ▸ List.mem_cons_self _ _) h1
    | cons b bs =>
      simp only [List.cons_append, List.cons.injEq] at h
      have h1t : '_' ∉ as := fun hm => h1 (List.mem_cons_of_mem _ hm)
      have h2t : '_' ∉ bs := fun hm => h2 (List.mem_cons_of_mem _ hm)
      rcases ih bs x y h1t h2t h.2 with ⟨hd, hx⟩
      exact ⟨by rw [h.1, hd], hx⟩

theorem chars_autoId (d o : String) :
    chars (autoId d o) =
      chars "auto_" ++ (chars (pyRemoveChar '_' d) ++ '_' :: chars o) := by
  simp only [autoId, chars_append]
  rw [show chars "_" = ['_'] from rfl]
  simp

theorem autoId_inj {d1 d2 x y : String} (h : autoId d1 x = autoId d2 y) :
    pyRemoveChar '_' d1 = pyRemoveChar '_' d2 ∧ x = y := by
  have hc := congrArg chars h
  rw [chars_autoId, chars_autoId] at hc
  have hc2 := List.append_cancel_left hc
  rcases append_underscore_inj _ _ _ _ (no_underscore_strip d1) (no_underscore_strip d2) hc2
    with ⟨hd, hx⟩
  refine ⟨?_, ?_⟩
  · have := congrArg ofChars hd
    simpa [ofChars_chars] using this
  · have := congrArg ofChars hx
    simpa [ofChars_chars] using this

theorem page_prefix_ne_auto (s d o : String) : "page_" ++ s ≠ autoId d o := by
  intro h
  have hc := congrArg chars h
  rw [chars_append, chars_autoId] at hc
  rw [show chars "page_" = ['p', 'a', 'g', 'e', '_'] from rfl,
      show chars "auto_" = ['a', 'u', 't', 'o', '_'] from rfl] at hc
  simp at hc

theorem page_prefix_inj {s t : String} (h : "page_" ++ s = "page_" ++ t) : s = t := by
  have hc := congrArg chars h
  rw [chars_append, chars_append] at hc
  have := List.append_cancel_left hc
  have := congrArg ofChars this
  simpa [ofChars_chars] using this

theorem author1_mem_authorIds {n : Nat} (h : n ≠ 0) : "author-1" ∈ authorIds n := by
  cases n with
  | zero => exact absurd rfl h
  | succ m =>
    show "author-1" ∈ personIdsGo "author" 1 (List.replicate (m + 1) true)
    rw [List.replicate_succ, personIdsGo, if_pos rfl]
    exact List.mem_append_left _ (by decide)

theorem author1_mem_metaBlockIds {me : PageMetaIds} (h : me.authors ≠ 0) :
    "author-1" ∈ metaBlockIds me := by
  rw [metaBlockIds, if_pos h]
  exact List.mem_append_left _ (List.mem_append_left _ (List.mem_append_left _
    (List.mem_append_left _ (List.mem_append_left _ (author1_mem_authorIds h)))))

theorem author1_count_pages :
    ∀ pages : List (String × PageMetaIds × List CElem),
      (pages.filter (fun p => p.2.1.authors != 0)).length ≤
        (pages.flatMap singleHTMLPageIds).count "author-1"
  | [] => Nat.le_refl 0
  | p :: ps => by
    have ih := author1_count_pages ps
    rw [List.flatMap_cons, List.count_append, List.filter_cons]
    by_cases hp : p.2.1.authors = 0
    · rw [if_neg (by simp [hp])]
      omega
    · rw [if_pos (by simp [hp])]
      have hmem : "author-1" ∈ singleHTMLPageIds p := by
        rw [singleHTMLPageIds]
        exact List.mem_cons_of_mem _
          (List.mem_append_left _ (author1_mem_metaBlockIds hp))
      have hc : 0 < (singleHTMLPageIds p).count "author-1" :=
        List.count_pos_iff.2 hmem
      rw [List.length_cons]
      omega

theorem toc_ne_page_prefix (s : String) : "toc" ≠ "page_" ++ s := by
  intro h
  have hc := congrArg chars h
  rw [chars_append, show chars "page_" = ['p', 'a', 'g', 'e', '_'] from rfl,
      show chars "toc" = ['t', 'o', 'c'] from rfl] at hc
  simp at hc

theorem toc_ne_auto (d o : String) : "toc" ≠ autoId d o := by
  intro h
  have hc := congrArg chars h
  rw [chars_autoId, show chars "auto_" = ['a', 'u', 't', 'o', '_'] from rfl,
      show chars "toc" = ['t', 'o', 'c'] from rfl] at hc
  simp at hc

/-- Claim C2, counterexample: with two pages whose ids `"a_b"` and
`"ab"` differ only by an underscore (which identifier generation
strips), an element with local id `"x"` on each page receives the same
book-wide identifier `auto_ab_x`, and no disambiguator is appended: the
flattened document's identifier list has a duplicate. -/
theorem generated_ids_not_unique_counterexample :
    ¬ (singleHTMLAllIds {}
        [("a_b", {}, [{ id := some "x" }]), ("ab", {}, [{ id := some "x" }])]).Nodup := by
  decide

/-- Claim C2, amended: each element carrying a local identifier inside a
page's content receives `auto_<pageID>_<localID>` with `_` stripped
from the pageID, unconditionally — the accumulated identifier set is
built but never consulted, so no numeric disambiguator is ever
appended and the synthesized value is kept even when it collides.
The flattened document's identifiers are NOT pairwise distinct in
general: the per-page metadata blocks are copied in unrenamed, and
their person ids are fixed per role and position, so any two pages
with authors both contribute `author-1`.  Uniqueness holds only when
neither the book's nor any page's metadata block contributes an id,
the pages' stripped ids are pairwise distinct, no page id already
starts with `page_`, and each page's local ids are distinct. -/
theorem auto_id_generation (d : String) (content : List CElem)
    (bm : PageMetaIds) (pages : List (String × PageMetaIds × List CElem)) :
    originalIds (generateIds d content) = (originalIds content).map (autoId d) ∧
    (2 ≤ (pages.filter (fun p => p.2.1.authors != 0)).length →
      ¬ (singleHTMLAllIds bm pages).Nodup) ∧
    (metaBlockIds bm = [] →
      (∀ p ∈ pages, metaBlockIds p.2.1 = []) →
      (pages.map (fun p => pyRemoveChar '_' p.1)).Nodup →
      (∀ p ∈ pages, ¬ pyStartsWith "page_" p.1 = true) →
      (∀ p ∈ pages, (originalIds p.2.2).Nodup) →
      (singleHTMLAllIds bm pages).Nodup) := by
  refine ⟨originalIds_generateIds d content, ?_, ?_⟩
  · intro h2 hnd
    have hcount := author1_count_pages pages
    have hle := List.nodup_iff_count_le_one.1 hnd "author-1"
    rw [singleHTMLAllIds, List.count_append,
        List.count_cons_of_ne (by decide)] at hle
    omega
  · intro hbm hpm hstrip hnostart hlocal
    rw [singleHTMLAllIds, hbm, List.nil_append]
    refine List.nodup_cons.2 ⟨?_, ?_⟩
    · intro hmem
      rcases List.mem_flatMap.1 hmem with ⟨p, hp, hin⟩
      rw [singleHTMLPageIds, hpm p hp, List.nil_append] at hin
      rcases List.mem_cons.1 hin with hw | hin
      · rw [if_neg (hnostart p hp)] at hw
        exact toc_ne_page_prefix p.1 hw
      · rw [originalIds_generateIds] at hin
        rcases List.mem_map.1 hin with ⟨o, _, ho⟩
        exact toc_ne_auto p.1 o ho.symm
    · rw [List.nodup_flatMap]
      constructor
      · intro p hp
        rw [singleHTMLPageIds, hpm p hp, List.nil_append, if_neg (hnostart p hp)]
        refine List.nodup_cons.2 ⟨?_, ?_⟩
        · intro hmem
          rw [originalIds_generateIds] at hmem
          rcases List.mem_map.1 hmem with ⟨o, _, ho⟩
          exact page_prefix_ne_auto p.1 p.1 o ho.symm
        · rw [originalIds_generateIds]
          refine List.Nodup.map ?_ (hlocal p hp)
          intro x y hxy
          exact (autoId_inj hxy).2
      · have hpw : pages.Pairwise
            (fun a b => ¬ pyRemoveChar '_' a.1 = pyRemoveChar '_' b.1) := by
          rw [List.Nodup, List.pairwise_map] at hstrip
          exact hstrip
        refine hpw.imp_of_mem ?_
        intro a b hma hmb hne
        simp only [Function.onFun]
        rw [singleHTMLPageIds, singleHTMLPageIds, hpm a hma, hpm b hmb,
            List.nil_append, List.nil_append,
            if_neg (hnostart a hma), if_neg (hnostart b hmb)]
        intro x hxa hxb
        rcases List.mem_cons.1 hxa with rfl | hxa
        · rcases List.mem_cons.1 hxb with hw | hxb
          · exact hne (congrArg (pyRemoveChar '_') (page_prefix_inj hw))
          · rw [originalIds_generateIds] at hxb
            rcases List.mem_map.1 hxb with ⟨o, _, ho⟩
            exact page_prefix_ne_auto a.1 b.1 o ho.symm
        · rw [originalIds_generateIds] at hxa
          rcases List.mem_map.1 hxa with ⟨o, _, ho⟩
          rcases List.mem_cons.1 hxb with hw | hxb
          · exact page_prefix_ne_auto b.1 a.1 o (ho.trans hw).symm
          · rw [originalIds_generateIds] at hxb
            rcases List.mem_map.1 hxb with ⟨o2, _, ho2⟩
            exact hne (autoId_inj (ho.trans ho2.symm)).1

/-- Claim C2, witness: the renaming, the metadata-block duplication at
two authored pages, and the conditional uniqueness, all at concrete
pages. -/
theorem auto_id_generation_witness :
    originalIds (generateIds "u_1" [{ id := some "x" }, { id := none, text := "t" }]) =
      (originalIds [{ id := some "x" }, { id := none, text := "t" }]).map (autoId "u_1") ∧
    ¬ (singleHTMLAllIds {}
        [("p1", { authors := 1 }, []), ("p2", { authors := 2 }, [])]).Nodup ∧
    (singleHTMLAllIds {}
      [("u_1", {}, [{ id := some "x" }, { id := some "y" }]),
       ("u2", {}, [{ id := some "x" }])]).Nodup :=
  ⟨(auto_id_generation "u_1" [{ id := some "x" }, { id := none, text := "t" }] {} []).1,
   (auto_id_generation "u_1" [] {}
      [("p1", { authors := 1 }, []), ("p2", { authors := 2 }, [])]).2.1 (by decide),
   (auto_id_generation "u_1" [] {}
      [("u_1", {}, [{ id := some "x" }, { id := some "y" }]),
       ("u2", {}, [{ id := some "x" }])]).2.2
     (by decide) (by decide) (by decide) (by decide) (by decide)⟩

/-! ## Claim C4 — cross-page link rewriting -/

/-- The uuid part of a page id: `id.split("@")[0]`. -/
def pageUuid (id : String) : String :=
  (pySplitChar '@' id).headD ""

theorem pageUuidPairs_eq_map (pageIds : List String) :
    pageUuidPairs pageIds = pageIds.map (fun id => (pageUuid id, id)) := rfl

theorem pyDictLookup_mem {pageIds : List String} {u id : String}
    (h : pyDictLookup (pageUuidPairs pageIds) u = some id) :
    id ∈ pageIds ∧ pageUuid id = u := by
  rw [pyDictLookup, pageUuidPairs_eq_map] at h
  rcases hfind : (pageIds.map (fun id => (pageUuid id, id))).reverse.find?
      (fun p => p.1 = u) with _ | pr
  · rw [hfind] at h; cases h
  · rw [hfind] at h
    injection h with h
    have hmem := List.mem_of_find?_eq_some hfind
    have hpred := List.find?_some hfind
    rw [List.mem_reverse] at hmem
    rcases List.mem_map.1 hmem with ⟨id0, hid0, hpr⟩
    subst h
    rw [← hpr] at hpred ⊢
    simp only [decide_eq_true_iff] at hpred
    exact ⟨hid0, hpred⟩

theorem pyDictLookup_isSome_of_mem {pageIds : List String} {u : String}
    (h : u ∈ pageIds.map pageUuid) :
    ∃ id, pyDictLookup (pageUuidPairs pageIds) u = some id := by
  rcases List.mem_map.1 h with ⟨id0, hid0, huuid⟩
  have hmem : (u, id0) ∈ (pageIds.map (fun id => (pageUuid id, id))).reverse := by
    rw [List.mem_reverse]
    exact List.mem_map.2 ⟨id0, hid0, by rw [huuid]⟩
  have hsome : ((pageIds.map (fun id => (pageUuid id, id))).reverse.find?
      (fun p => p.1 = u)).isSome := by
    rw [List.find?_isSome]
    exact ⟨(u, id0), hmem, by simp⟩
  rcases Option.isSome_iff_exists.1 hsome with ⟨pr, hpr⟩
  exact ⟨pr.2, by rw [pyDictLookup, pageUuidPairs_eq_map, hpr]; rfl⟩

/-- Claim C4: after `SingleHTMLFormatter.build`, a link whose href is an
absolute contents path and whose target uuid (the part of the path
before any `@` or `#`) is the uuid of a page of the binder is rewritten
to `#page_<id>` when the href carries no fragment and to
`#auto_<id><fragment>` (the fragment with `#` replaced by `_`) when it
does; an href whose target uuid matches no page, or which is not a
contents path, is returned byte-for-byte unchanged — the rewriting
function is total, so the build never fails on a link. -/
theorem contents_link_rewriting (pageIds : List String) (href : String) :
    (pyStartsWith "/contents/" href = true →
      (pyTakeUntilAtHash (pyDrop 10 href) ∈ pageIds.map pageUuid →
        ∃ id, id ∈ pageIds ∧ pageUuid id = pyTakeUntilAtHash (pyDrop 10 href) ∧
          rewriteContentsHref (pageUuidPairs pageIds) href =
            (if pyContainsChar '#' href = true then
              "#auto_" ++ id ++ pyReplaceChar1 '#' '_' (pyFromHash href)
            else "#page_" ++ id)) ∧
      (pyTakeUntilAtHash (pyDrop 10 href) ∉ pageIds.map pageUuid →
        rewriteContentsHref (pageUuidPairs pageIds) href = href)) ∧
    (¬ pyStartsWith "/contents/" href = true →
      rewriteContentsHref (pageUuidPairs pageIds) href = href) := by
  refine ⟨fun hpre => ⟨fun hin => ?_, fun hout => ?_⟩, fun hpre => ?_⟩
  · rcases pyDictLookup_isSome_of_mem hin with ⟨id, hid⟩
    rcases pyDictLookup_mem hid with ⟨hmem, huuid⟩
    refine ⟨id, hmem, huuid, ?_⟩
    simp [rewriteContentsHref, hpre, hid]
  · rcases hlook : pyDictLookup (pageUuidPairs pageIds) (pyTakeUntilAtHash (pyDrop 10 href))
      with _ | id
    · simp [rewriteContentsHref, hpre, hlook]
    · rcases pyDictLookup_mem hlook with ⟨hmem, huuid⟩
      exact absurd (List.mem_map.2 ⟨id, hmem, huuid⟩) hout
  · rw [rewriteContentsHref, if_neg hpre]

/-- Claim C4, witness: a matching link with fragment, a matching link
without fragment, an unmatched contents link and a non-contents link,
all at a concrete binder. -/
theorem contents_link_rewriting_witness :
    (∃ id, id ∈ ["abc@2", "def"] ∧ pageUuid id = "abc" ∧
      rewriteContentsHref (pageUuidPairs ["abc@2", "def"]) "/contents/abc@2#f1" =
        (if pyContainsChar '#' "/contents/abc@2#f1" = true then
          "#auto_" ++ id ++ pyReplaceChar1 '#' '_' (pyFromHash "/contents/abc@2#f1")
        else "#page_" ++ id)) ∧
    rewriteContentsHref (pageUuidPairs ["abc@2", "def"]) "/contents/zzz" = "/contents/zzz" ∧
    rewriteContentsHref (pageUuidPairs ["abc@2", "def"]) "relative.png" = "relative.png" :=
  ⟨(contents_link_rewriting ["abc@2", "def"] "/contents/abc@2#f1").1 (by decide) |>.1
     (by decide),
   (contents_link_rewriting ["abc@2", "def"] "/contents/zzz").1 (by decide) |>.2 (by decide),
   (contents_link_rewriting ["abc@2", "def"] "relative.png").2 (by decide)⟩

/-! ## Claim C1 — the single-document round trip

The content-model tree (models.py) as a mutual inductive: `doc` is a
`Document` (content as the document-order element list used for
`_generate_ids` above), `cdoc` a `CompositeDocument`, `ptr` a
`DocumentPointer` (its stored `ident_hash`/`id`), `bind` a `Binder`
(its private `_id` and metadata) and `tbind` a `TranslucentBinder`.
Binder variants carry the child sequence and the per-child
title-override sequence. -/

mutual
inductive Model where
  | doc (id : String) (meta : MetaD) (content : List CElem)
  | cdoc (id : String) (meta : MetaD) (content : List CElem)
  | ptr (id : String) (meta : MetaD)
  | bind (id : Option String) (meta : MetaD) (children : ModelList)
      (overrides : List (Option String))
  | tbind (meta : MetaD) (children : ModelList) (overrides : List (Option String))
  deriving DecidableEq
inductive ModelList where
  | nil
  | cons (m : Model) (ms : ModelList)
  deriving DecidableEq
end

/-- Number of children. -/
def mlLength : ModelList → Nat
  | .nil => 0
  | .cons _ ms => mlLength ms + 1

/-- The children as an ordinary list. -/
def mlToList : ModelList → List Model
  | .nil => []
  | .cons m ms => m :: mlToList ms

/-- `list.index(node)` over the child sequence: the first position
holding a child equal to the argument (the length when absent, where
CPython would raise `ValueError`). -/
def mlIndexOf : ModelList → Model → Nat
  | .nil, _ => 0
  | .cons m ms, n => if m = n then 0 else mlIndexOf ms n + 1

/-- The node's metadata mapping. -/
def metaOf : Model → MetaD
  | .doc _ me _ => me
  | .cdoc _ me _ => me
  | .ptr _ me => me
  | .bind _ me _ _ => me
  | .tbind me _ _ => me

/-- The node's `id` attribute (`Binder._id`, `Document._id`,
`DocumentPointer.id`; a `TranslucentBinder` has the class attribute
`id = None`). -/
def modelIdOf : Model → Option String
  | .doc id _ _ => some id
  | .cdoc id _ _ => some id
  | .ptr id _ => some id
  | .bind id _ _ _ => id
  | .tbind _ _ _ => none

/-- `isinstance(node, TranslucentBinder)`: true for both binder
variants, since `Binder` subclasses `TranslucentBinder`. -/
def isContainerB : Model → Bool
  | .bind _ _ _ _ => true
  | .tbind _ _ _ => true
  | _ => false

/-- The node's `ident_hash`: documents join `_id` with the metadata
version, a pointer returns its stored value, binders go through
`Binder.ident_hash`, and a translucent binder has none. -/
def modelIdentHash : Model → Option String
  | .doc id me _ => DocumentId.identHash { _id := some id, metadata := me }
  | .cdoc id me _ => DocumentId.identHash { _id := some id, metadata := me }
  | .ptr id _ => some id
  | .bind id me _ _ => BinderId.identHash { _id := id, metadata := me }
  | .tbind _ _ _ => none

/-- The effective display title of a child, as `model_to_tree` computes
it: `title = title is not None and title or md.get("title")` — the
override when present and non-empty, else the node's own metadata
title. -/
def effTitleOf (title : Option String) (m : Model) : String :=
  match title with
  | some s => if s ≠ "" then s else (metaOf m).title
  | none => (metaOf m).title

/-- `TranslucentBinder.get_title_for_node` over a child sequence:
the override at `nodes.index(node)`. -/
def getTitleForNode (cs : ModelList) (ovs : List (Option String)) (n : Model) :
    Option String :=
  (ovs.get? (mlIndexOf cs n)).getD none

/-! ### Observation functions for the round-trip claim -/

mutual
/-- Total number of nodes of a tree. -/
def nodeCountM : Model → Nat
  | .bind _ _ cs _ => 1 + nodeCountL cs
  | .tbind _ cs _ => 1 + nodeCountL cs
  | _ => 1
/-- Total number of nodes below a child sequence. -/
def nodeCountL : ModelList → Nat
  | .nil => 0
  | .cons m ms => nodeCountM m + nodeCountL ms
end

/-- Whether any child is a `TranslucentBinder` instance (the test
`SingleHTMLFormatter.get_node_type` runs). -/
def containsTranslucentChild : ModelList → Bool
  | .nil => false
  | .cons m ms => isContainerB m || containsTranslucentChild ms

/-- `SingleHTMLFormatter.get_node_type` (formatters.py lines 199-214):
composite documents are `composite-page`, documents and pointers are
`page`, a parentless `Binder` is `book`, and any other binder is `unit`
when at least one child is a `TranslucentBinder` instance and `chapter`
otherwise. -/
def getNodeType (isRoot : Bool) : Model → String
  | .cdoc _ _ _ => "composite-page"
  | .doc _ _ _ => "page"
  | .ptr _ _ => "page"
  | .bind _ _ cs _ =>
    if isRoot then "book"
    else if containsTranslucentChild cs then "unit" else "chapter"
  | .tbind _ cs _ => if containsTranslucentChild cs then "unit" else "chapter"

mutual
/-- The structural roles of a subtree in pre-order, the node viewed as
a child. -/
def roleSeqM : Model → List String
  | .bind id me cs ov => getNodeType false (.bind id me cs ov) :: roleSeqL cs
  | .tbind me cs ov => getNodeType false (.tbind me cs ov) :: roleSeqL cs
  | m => [getNodeType false m]
/-- The structural roles below a child sequence. -/
def roleSeqL : ModelList → List String
  | .nil => []
  | .cons m ms => roleSeqM m ++ roleSeqL ms
end

/-- The structural roles of a whole tree, the root viewed as
parentless. -/
def roleSeqRoot (m : Model) : List String :=
  match m with
  | .bind id me cs ov => getNodeType true (.bind id me cs ov) :: roleSeqL cs
  | .tbind me cs ov => getNodeType true (.tbind me cs ov) :: roleSeqL cs
  | m => [getNodeType true m]

mutual
/-- The per-parent effective display titles of a subtree, pre-order:
for each child its effective title (override when present and
non-empty, else intrinsic) followed by its own subtree's titles. -/
def effTitlesM : Model → List String
  | .bind _ _ cs ovs => effTitlesL cs ovs
  | .tbind _ cs ovs => effTitlesL cs ovs
  | _ => []
/-- Effective display titles below a child sequence with its override
sequence. -/
def effTitlesL : ModelList → List (Option String) → List String
  | .nil, _ => []
  | .cons m ms, ovs =>
    effTitleOf (ovs.headD none) m :: (effTitlesM m ++ effTitlesL ms ovs.tail)
end

/-- The visible text of a page content: the concatenated element
texts. -/
def textOf (content : List CElem) : String :=
  content.foldr (fun e acc => e.text ++ acc) ""

mutual
/-- The visible text of every `page`-role leaf in pre-order: `some` for
document variants (which own content), `none` for pointers (which own
none). -/
def leafTextsM : Model → List (Option String)
  | .doc _ _ c => [some (textOf c)]
  | .cdoc _ _ c => [some (textOf c)]
  | .ptr _ _ => [none]
  | .bind _ _ cs _ => leafTextsL cs
  | .tbind _ cs _ => leafTextsL cs
/-- The leaf texts below a child sequence. -/
def leafTextsL : ModelList → List (Option String)
  | .nil => []
  | .cons m ms => leafTextsM m ++ leafTextsL ms
end

mutual
/-- Well-formedness of a tree: at every binder the override sequence
has the children's length (the invariant of claim C9) and the children
are pairwise distinct (so that `list.index` in
`get_title_for_node` identifies each child's own position). -/
def wfM : Model → Bool
  | .bind _ _ cs ovs =>
    (mlLength cs == ovs.length) && decide (mlToList cs).Nodup && wfL cs
  | .tbind _ cs ovs =>
    (mlLength cs == ovs.length) && decide (mlToList cs).Nodup && wfL cs
  | _ => true
/-- Well-formedness of every tree of a child sequence. -/
def wfL : ModelList → Bool
  | .nil => true
  | .cons m ms => wfM m && wfL ms
end

/-! ### The navigation tree (models.model_to_tree, rendered by
formatters.tree_to_html and parsed back by the reconstitutor) -/

/-- One node of the synthetic navigation block:
`{"id": <ident_hash>|"subcol", "title": <title>, "contents": [...]}`.
`contents` is present exactly for the binder variants. -/
inductive NavTree where
  | node (id : Option String) (title : String) (contents : Option (List NavTree))

/-- The title of a nav node. -/
def NavTree.titleOf : NavTree → String
  | .node _ t _ => t

/-- The contents of a nav node (empty when absent). -/
def NavTree.contentsOf : NavTree → List NavTree
  | .node _ _ c => c.getD []

mutual
/-- `model_to_tree` (models.py lines 104-123): the id is the node's
`ident_hash`, with the reserved `"subcol"` for a translucent-binder
instance without one; the title is the passed display title when truthy
else the metadata title; binder variants recurse over their children
with `get_title_for_node`. -/
def modelToTree (title : Option String) (m : Model) : NavTree :=
  .node
    (if modelIdentHash m = none ∧ isContainerB m then some "subcol" else modelIdentHash m)
    (effTitleOf title m)
    (match m with
     | .bind _ _ cs ovs => some (modelToTreeChildren cs ovs cs)
     | .tbind _ cs ovs => some (modelToTreeChildren cs ovs cs)
     | _ => none)
/-- The recursion of `model_to_tree` over a child sequence: each child
is rendered with the display title `model.get_title_for_node(node)`
looked up in the whole sequence `cs0`. -/
def modelToTreeChildren (cs0 : ModelList) (ovs : List (Option String)) :
    ModelList → List NavTree
  | .nil => []
  | .cons m ms =>
    modelToTree (getTitleForNode cs0 ovs m) m :: modelToTreeChildren cs0 ovs ms
end

/-! ### The formatter (formatters.SingleHTMLFormatter) -/

mutual
/-- One structural element of the flattened document: a `div` tagged
with a structural role, carrying its id attribute, the title and
archive-uri of its metadata block, and — for containers — the
translucent marker, the `h1` document title and the nested structural
elements, or — for pages — the inlined page content. -/
inductive SElem where
  | container (role : String) (idAttr : Option String) (metaTitle : String)
      (metaUri : Option String) (metaTransl : Bool) (h1Title : String)
      (children : SElemList)
  | page (role : String) (idAttr : Option String) (metaTitle : String)
      (metaUri : Option String) (content : List CElem)
inductive SElemList where
  | nil
  | cons (e : SElem) (es : SElemList)
end

/-- Length of a structural element sequence. -/
def sLen : SElemList → Nat
  | .nil => 0
  | .cons _ es => sLen es + 1

/-- The id attribute `_build_binder` assigns to a node's wrapper `div`
(formatters.py lines 221-228): nothing when `node.id` is falsy;
otherwise the id, prefixed with `page_` exactly when the structural
role is `page` and the id does not already start with `page_`. -/
def wrapperIdAttr (role : String) (id : Option String) : Option String :=
  if pyTruthy id then
    some (if role = "page" ∧ ¬ pyStartsWith "page_" ((id.getD "") : String) = true then
            "page_" ++ id.getD ""
          else id.getD "")
  else none

/-- The rendered body of a `DocumentPointer` (the fixed click-through
paragraph of `DOCUMENT_POINTER_TEMPLATE`, linking `metadata["url"]`). -/
def ptrContent (me : MetaD) : List CElem :=
  [{ id := none, href := some (me.url.getD ""),
     text := "Click here to read " ++ me.title ++ "." }]

mutual
/-- `SingleHTMLFormatter._build_binder` for one child node
(formatters.py lines 216-253): a wrapper `div` tagged with the node's
role and id attribute; binder variants contribute their metadata block,
an `h1` with the intrinsic metadata title, and their recursively built
children; document variants inline their `HTMLFormatter` body with
`generate_ids=True` (the synthesized `auto_` identifiers of
`_generate_ids`), pointers their rendered pointer body. -/
def buildNode : Model → SElem
  | .doc id me content =>
    .page "page" (wrapperIdAttr "page" (some id)) me.title me.cnxArchiveUri
      (generateIds id content)
  | .cdoc id me content =>
    .page "composite-page" (wrapperIdAttr "composite-page" (some id)) me.title
      me.cnxArchiveUri (generateIds id content)
  | .ptr id me =>
    .page "page" (wrapperIdAttr "page" (some id)) me.title me.cnxArchiveUri
      (ptrContent me)
  | .bind id me cs ovs =>
    .container (getNodeType false (.bind id me cs ovs)) (wrapperIdAttr "c" id)
      me.title me.cnxArchiveUri false me.title (buildList cs)
  | .tbind me cs ovs =>
    .container (getNodeType false (.tbind me cs ovs)) none
      me.title me.cnxArchiveUri true me.title (buildList cs)
/-- `_build_binder` over a child sequence. -/
def buildList : ModelList → SElemList
  | .nil => .nil
  | .cons m ms => .cons (buildNode m) (buildList ms)
end

mutual
/-- The document ids of `flatten_to_documents` (pre-order, documents
and composite documents only, no pointers), from which `build` derives
`page_uuids`. -/
def flattenDocIds : Model → List String
  | .doc id _ _ => [id]
  | .cdoc id _ _ => [id]
  | .ptr _ _ => []
  | .bind _ _ cs _ => flattenDocIdsL cs
  | .tbind _ cs _ => flattenDocIdsL cs
/-- `flatten_to_documents` ids below a child sequence. -/
def flattenDocIdsL : ModelList → List String
  | .nil => []
  | .cons m ms => flattenDocIds m ++ flattenDocIdsL ms
end

/-- The cross-page rewriting of `build` applied to one content element
(formatters.py lines 271-284): every element with an `href` runs
through the intra-binder link rewriting. -/
def rewriteHrefElem (pm : List (String × String)) (e : CElem) : CElem :=
  match e.href with
  | some h => { e with href := some (rewriteContentsHref pm h) }
  | none => e

/-- The cross-page rewriting over a page content. -/
def rewriteContentList (pm : List (String × String)) (content : List CElem) :
    List CElem :=
  content.map (rewriteHrefElem pm)

mutual
/-- The cross-page rewriting of `build` over the flattened document. -/
def rewriteSElem (pm : List (String × String)) : SElem → SElem
  | .container r i mt mu tr h1 cs => .container r i mt mu tr h1 (rewriteSList pm cs)
  | .page r i mt mu content => .page r i mt mu (rewriteContentList pm content)
/-- The cross-page rewriting over a structural sequence. -/
def rewriteSList (pm : List (String × String)) : SElemList → SElemList
  | .nil => .nil
  | .cons e es => .cons (rewriteSElem pm e) (rewriteSList pm es)
end

/-- The flattened single document. -/
structure SingleDoc where
  bookTitle : String
  bookUri : Option String
  nav : List NavTree
  body : SElemList

/-- `SingleHTMLFormatter.build` over a whole tree: the navigation block
is `tree_to_html(model_to_tree(binder))`, the body is the built child
sequence, and the intra-binder links are then rewritten against
`page_uuids`. -/
def formatSingle (root : Model) : SingleDoc :=
  let pm := pageUuidPairs (flattenDocIds root)
  { bookTitle := (metaOf root).title
    bookUri := (metaOf root).cnxArchiveUri
    nav := (modelToTree none root).contentsOf
    body := rewriteSList pm (buildList (match root with
      | .bind _ _ cs _ => cs
      | .tbind _ cs _ => cs
      | _ => .nil)) }

/-! ### The reconstitutor

`adapt_single_html` — the inverse of the formatter — is not part of the
source tree: only its caller (`collation.reconstitute`, collation.py
lines 42-44) and its test suite are.  Every definition below is
modelled from the specification (section 4.6) and marked as such. -/

/-- Modelled from the spec: the deterministic name-based (UUID5)
identifier derivation for a non-leaf lacking a persisted identifier,
keyed on the closest ancestor identifier and a stable per-node key (the
title here, standing for the explicit key attribute / CSS class / title
chain).  The UUID5 byte computation itself is opaque to the claims;
injectivity of the pairing is all that is observable. -/
def deriveContainerId (ancestor key : String) : String :=
  "uuid5:" ++ ancestor ++ ":" ++ key

/-- Modelled from the spec: restore an identifier beginning with the
synthetic `auto_` marker to its original local form — drop `auto_`,
then the underscore-free page-id component and its separator. -/
def restoreLocal (s : String) : String :=
  if pyStartsWith "auto_" s then
    ofChars (((chars (pyDrop 5 s)).dropWhile (fun c => c ≠ '_')).drop 1)
  else s

/-- Modelled from the spec: the identifier fixup over a page's content,
left to right; a restored identifier already used on this page receives
a numeric disambiguating suffix (collision-safe per page). -/
def restoreContentGo (used : List String) : List CElem → List CElem
  | [] => []
  | e :: es =>
    match e.id with
    | none => e :: restoreContentGo used es
    | some i =>
      let r := restoreLocal i
      let r2 := if r ∈ used then r ++ natStr (used.count r) else r
      { e with id := some r2 } :: restoreContentGo (r :: used) es

/-- Modelled from the spec: the identifier fixup over a page's
content. -/
def restoreContent (content : List CElem) : List CElem :=
  restoreContentGo [] content

/-- Modelled from the spec: the page id recovered for a leaf — the uuid
part of its persisted archive-uri when the metadata block has one, else
the wrapper id attribute with the `page_` namespace stripped. -/
def pageIdRecon (mUri idAttr : Option String) : String :=
  match mUri with
  | some uri => (pySplitChar '@' uri).headD ""
  | none =>
    match idAttr with
    | some a => if pyStartsWith "page_" a then pyDrop 5 a else a
    | none => ""

/-- Modelled from the spec: the entries a single page contributes to
the global old-id → (page, new-id) map — each `auto_` identifier paired
with the cross-book reference to its restored form. -/
def gatherPairsGo (pid : String) (used : List String) :
    List CElem → List (String × String)
  | [] => []
  | e :: es =>
    match e.id with
    | none => gatherPairsGo pid used es
    | some i =>
      let r := restoreLocal i
      let r2 := if r ∈ used then r ++ natStr (used.count r) else r
      if pyStartsWith "auto_" i then
        (i, "/contents/" ++ pid ++ "#" ++ r2) :: gatherPairsGo pid (r :: used) es
      else
        gatherPairsGo pid (r :: used) es

mutual
/-- Modelled from the spec: the global old-id map gathered over every
leaf of the flattened document. -/
def gatherAutoE : SElem → List (String × String)
  | .container _ _ _ _ _ _ cs => gatherAutoS cs
  | .page _ idAttr _ mUri content => gatherPairsGo (pageIdRecon mUri idAttr) [] content
/-- Modelled from the spec: the global old-id map over a structural
sequence. -/
def gatherAutoS : SElemList → List (String × String)
  | .nil => []
  | .cons e es => gatherAutoE e ++ gatherAutoS es
end

/-- Modelled from the spec: the second pass over a leaf's links — an
intra-book fragment link whose target is in the global map is rewritten
to the target's cross-book reference; an unresolved target is left
unmodified (logged, never fatal). -/
def linkPassElem (g : List (String × String)) (e : CElem) : CElem :=
  match e.href with
  | some h =>
    if pyStartsWith "#" h then
      match (g.find? (fun p => p.1 = pyDrop 1 h)).map (fun p => p.2) with
      | some target => { e with href := some target }
      | none => e
    else e
  | none => e

/-- Modelled from the spec: the second link pass over a page
content. -/
def linkPassContent (g : List (String × String)) (content : List CElem) :
    List CElem :=
  content.map (linkPassElem g)

mutual
/-- Modelled from the spec: reconstitute one structural element against
its navigation node.  A `page`/`composite-page` strips its metadata
block (held apart in the embedding), runs the identifier fixup and the
link pass, and builds a `Document`/`CompositeDocument`; a
`unit`/`chapter`/`composite-chapter` recovers its identifier from the
metadata block or derives one from the ancestor identifier and its
stable key, recurses with the navigation contents — whose length must
match the structural children, else the tree/markup desynchronization
is fatal — and records the navigation titles as its title overrides; an
unrecognized structural role tag is fatal. -/
def adaptSElem (g : List (String × String)) (anc : String) (nav : NavTree) :
    SElem → Except PyErr Model
  | .page role idAttr mTitle mUri content =>
    if role = "page" ∨ role = "composite-page" then
      let id := pageIdRecon mUri idAttr
      let c2 := linkPassContent g (restoreContent content)
      .ok (if role = "composite-page" then
             .cdoc id { title := mTitle, cnxArchiveUri := mUri } c2
           else .doc id { title := mTitle, cnxArchiveUri := mUri } c2)
    else .error (.adaptationError ("Unknown data-type: " ++ role))
  | .container role idAttr mTitle mUri mTr h1 cs =>
    if role = "unit" ∨ role = "chapter" ∨ role = "composite-chapter" then
      let cid := match mUri with
        | some uri => (pySplitChar '@' uri).headD ""
        | none => deriveContainerId anc h1
      if sLen cs ≠ nav.contentsOf.length then
        .error (.adaptationError "Number of elements does not match")
      else
        match adaptGo g cid cs nav.contentsOf with
        | .ok children =>
          .ok (.bind (some cid) { title := mTitle, cnxArchiveUri := mUri } children
                (nav.contentsOf.map (fun n => some n.titleOf)))
        | .error er => .error er
    else .error (.adaptationError ("Unknown data-type: " ++ role))
/-- Modelled from the spec: reconstitute a structural sequence against
the matching navigation sequence, one navigation node per structural
element. -/
def adaptGo (g : List (String × String)) (anc : String) :
    SElemList → List NavTree → Except PyErr ModelList
  | .nil, _ => .ok .nil
  | .cons _ _, [] => .error (.adaptationError "Number of elements does not match")
  | .cons e es, nav :: rest =>
    match adaptSElem g anc nav e with
    | .error er => .error er
    | .ok m =>
      match adaptGo g anc es rest with
      | .error er => .error er
      | .ok ms => .ok (.cons m ms)
end

/-- Modelled from the spec: `adapt_single_html` — parse the synthetic
navigation block, reconstitute the body against it level by level (a
child-count mismatch is fatal), and return the book binder carrying the
navigation titles as its title overrides. -/
def adaptSingle (d : SingleDoc) : Except PyErr Model :=
  let g := gatherAutoS d.body
  let bookId := match d.bookUri with
    | some uri => (pySplitChar '@' uri).headD ""
    | none => "book"
  if sLen d.body ≠ d.nav.length then
    .error (.adaptationError "Number of elements does not match")
  else
    match adaptGo g bookId d.body d.nav with
    | .ok children =>
      .ok (.bind (some bookId) { title := d.bookTitle, cnxArchiveUri := d.bookUri }
            children (d.nav.map (fun n => some n.titleOf)))
    | .error er => .error er

/-! ### The reconstituted tree, computed directly from the input tree

`reconM` spells out what reconstituting the formatted output of a node
produces; the key theorem below proves the reconstitutor really returns
it. -/

mutual
/-- The reconstitution of one formatted node: pages come back as
documents with the identifier pipeline applied to their content,
pointers come back as documents carrying the rendered pointer body, and
binder variants come back as identifier-bearing binders whose overrides
are the navigation display titles. -/
def reconM (g pm : List (String × String)) (anc : String) : Model → Model
  | .doc id me content =>
    .doc (pageIdRecon me.cnxArchiveUri (wrapperIdAttr "page" (some id)))
      { title := me.title, cnxArchiveUri := me.cnxArchiveUri }
      (linkPassContent g (restoreContent (rewriteContentList pm (generateIds id content))))
  | .cdoc id me content =>
    .cdoc (pageIdRecon me.cnxArchiveUri (wrapperIdAttr "composite-page" (some id)))
      { title := me.title, cnxArchiveUri := me.cnxArchiveUri }
      (linkPassContent g (restoreContent (rewriteContentList pm (generateIds id content))))
  | .ptr id me =>
    .doc (pageIdRecon me.cnxArchiveUri (wrapperIdAttr "page" (some id)))
      { title := me.title, cnxArchiveUri := me.cnxArchiveUri }
      (linkPassContent g (restoreContent (rewriteContentList pm (ptrContent me))))
  | .bind _ me cs ovs =>
    .bind (some (match me.cnxArchiveUri with
        | some uri => (pySplitChar '@' uri).headD ""
        | none => deriveContainerId anc me.title))
      { title := me.title, cnxArchiveUri := me.cnxArchiveUri }
      (reconL g pm (match me.cnxArchiveUri with
        | some uri => (pySplitChar '@' uri).headD ""
        | none => deriveContainerId anc me.title) cs)
      ((modelToTreeChildren cs ovs cs).map (fun n => some n.titleOf))
  | .tbind me cs ovs =>
    .bind (some (match me.cnxArchiveUri with
        | some uri => (pySplitChar '@' uri).headD ""
        | none => deriveContainerId anc me.title))
      { title := me.title, cnxArchiveUri := me.cnxArchiveUri }
      (reconL g pm (match me.cnxArchiveUri with
        | some uri => (pySplitChar '@' uri).headD ""
        | none => deriveContainerId anc me.title) cs)
      ((modelToTreeChildren cs ovs cs).map (fun n => some n.titleOf))
/-- The reconstitution of a formatted child sequence. -/
def reconL (g pm : List (String × String)) (anc : String) : ModelList → ModelList
  | .nil => .nil
  | .cons m ms => .cons (reconM g pm anc m) (reconL g pm anc ms)
end

theorem sLen_rewriteSList (pm : List (String × String)) :
    ∀ ss, sLen (rewriteSList pm ss) = sLen ss
  | .nil => rfl
  | .cons e es => by simp [rewriteSList, sLen, sLen_rewriteSList pm es]

theorem sLen_buildList : ∀ cs, sLen (buildList cs) = mlLength cs
  | .nil => rfl
  | .cons m ms => by simp [buildList, sLen, mlLength, sLen_buildList ms]

theorem length_modelToTreeChildren (cs0 : ModelList) (ovs : List (Option String)) :
    ∀ its, (modelToTreeChildren cs0 ovs its).length = mlLength its
  | .nil => rfl
  | .cons m ms => by
    simp [modelToTreeChildren, mlLength, length_modelToTreeChildren cs0 ovs ms]

theorem contentsOf_modelToTree_bind (t : Option String) (id : Option String)
    (me : MetaD) (cs : ModelList) (ovs : List (Option String)) :
    (modelToTree t (.bind id me cs ovs)).contentsOf = modelToTreeChildren cs ovs cs := rfl

theorem contentsOf_modelToTree_tbind (t : Option String)
    (me : MetaD) (cs : ModelList) (ovs : List (Option String)) :
    (modelToTree t (.tbind me cs ovs)).contentsOf = modelToTreeChildren cs ovs cs := rfl

mutual
/-- Key simulation: reconstituting the formatted, link-rewritten form
of a child node against its navigation node succeeds and produces
exactly its `reconM` image, for any display title, ancestor id, global
map and page-uuid map. -/
theorem adapt_format_node (g pm : List (String × String)) (anc : String)
    (t : Option String) :
    ∀ m : Model,
      adaptSElem g anc (modelToTree t m) (rewriteSElem pm (buildNode m)) =
        .ok (reconM g pm anc m)
  | .doc id me content => by
    simp [buildNode, rewriteSElem, adaptSElem, reconM]
  | .cdoc id me content => by
    simp [buildNode, rewriteSElem, adaptSElem, reconM]
  | .ptr id me => by
    simp [buildNode, rewriteSElem, adaptSElem, reconM]
  | .bind id me cs ovs => by
    have hrole : getNodeType false (.bind id me cs ovs) = "unit" ∨
        getNodeType false (.bind id me cs ovs) = "chapter" := by
      simp only [getNodeType]
      by_cases h : containsTranslucentChild cs = true <;> simp [h]
    have hlen : sLen (rewriteSList pm (buildList cs)) =
        (modelToTree t (.bind id me cs ovs)).contentsOf.length := by
      rw [sLen_rewriteSList, sLen_buildList, contentsOf_modelToTree_bind,
        length_modelToTreeChildren]
    have hgo := adapt_format_go g pm
      (match me.cnxArchiveUri with
        | some uri => (pySplitChar '@' uri).headD ""
        | none => deriveContainerId anc me.title) cs ovs cs
    simp only [buildNode, rewriteSElem, adaptSElem]
    rw [if_pos (by rcases hrole with h | h <;> rw [h] <;> simp)]
    rw [if_neg (by rw [hlen]; simp)]
    rw [contentsOf_modelToTree_bind, hgo]
    rfl
  | .tbind me cs ovs => by
    have hlen : sLen (rewriteSList pm (buildList cs)) =
        (modelToTree t (.tbind me cs ovs)).contentsOf.length := by
      rw [sLen_rewriteSList, sLen_buildList, contentsOf_modelToTree_tbind,
        length_modelToTreeChildren]
    have hgo := adapt_format_go g pm
      (match me.cnxArchiveUri with
        | some uri => (pySplitChar '@' uri).headD ""
        | none => deriveContainerId anc me.title) cs ovs cs
    simp only [buildNode, rewriteSElem, adaptSElem]
    rw [if_pos (by
      by_cases h : containsTranslucentChild cs = true <;> simp [getNodeType, h])]
    rw [if_neg (by rw [hlen]; simp)]
    rw [contentsOf_modelToTree_tbind, hgo]
    rfl
/-- Key simulation over a child sequence: the iterated reconstitution
of the formatted children against the `model_to_tree` navigation
entries succeeds and produces the `reconL` image. -/
theorem adapt_format_go (g pm : List (String × String)) (anc : String)
    (cs0 : ModelList) (ovs : List (Option String)) :
    ∀ its : ModelList,
      adaptGo g anc (rewriteSList pm (buildList its)) (modelToTreeChildren cs0 ovs its) =
        .ok (reconL g pm anc its)
  | .nil => rfl
  | .cons m ms => by
    simp only [buildList, rewriteSList, modelToTreeChildren, adaptGo]
    rw [adapt_format_node g pm anc (getTitleForNode cs0 ovs m) m,
      adapt_format_go g pm anc cs0 ovs ms]
    rfl
end

/-! ### Preservation lemmas across the round trip -/

mutual
theorem nodeCount_reconM (g pm : List (String × String)) (anc : String) :
    ∀ m, nodeCountM (reconM g pm anc m) = nodeCountM m
  | .doc _ _ _ => rfl
  | .cdoc _ _ _ => rfl
  | .ptr _ _ => rfl
  | .bind id me cs ovs => by
    simp [reconM, nodeCountM, nodeCount_reconL g pm _ cs]
  | .tbind me cs ovs => by
    simp [reconM, nodeCountM, nodeCount_reconL g pm _ cs]
theorem nodeCount_reconL (g pm : List (String × String)) (anc : String) :
    ∀ cs, nodeCountL (reconL g pm anc cs) = nodeCountL cs
  | .nil => rfl
  | .cons m ms => by
    simp [reconL, nodeCountL, nodeCount_reconM g pm anc m, nodeCount_reconL g pm anc ms]
end

theorem isContainer_reconM (g pm : List (String × String)) (anc : String) :
    ∀ m, isContainerB (reconM g pm anc m) = isContainerB m
  | .doc _ _ _ => rfl
  | .cdoc _ _ _ => rfl
  | .ptr _ _ => rfl
  | .bind _ _ _ _ => rfl
  | .tbind _ _ _ => rfl

theorem containsTransl_reconL (g pm : List (String × String)) (anc : String) :
    ∀ cs, containsTranslucentChild (reconL g pm anc cs) = containsTranslucentChild cs
  | .nil => rfl
  | .cons m ms => by
    simp [reconL, containsTranslucentChild, isContainer_reconM g pm anc m,
      containsTransl_reconL g pm anc ms]

mutual
theorem roleSeq_reconM (g pm : List (String × String)) (anc : String) :
    ∀ m, roleSeqM (reconM g pm anc m) = roleSeqM m
  | .doc _ _ _ => rfl
  | .cdoc _ _ _ => rfl
  | .ptr _ _ => rfl
  | .bind id me cs ovs => by
    simp only [reconM, roleSeqM, getNodeType]
    rw [containsTransl_reconL g pm _ cs, roleSeq_reconL g pm _ cs]
  | .tbind me cs ovs => by
    simp only [reconM, roleSeqM, getNodeType]
    rw [containsTransl_reconL g pm _ cs, roleSeq_reconL g pm _ cs]
    simp
theorem roleSeq_reconL (g pm : List (String × String)) (anc : String) :
    ∀ cs, roleSeqL (reconL g pm anc cs) = roleSeqL cs
  | .nil => rfl
  | .cons m ms => by
    simp [reconL, roleSeqL, roleSeq_reconM g pm anc m, roleSeq_reconL g pm anc ms]
end

theorem metaTitle_reconM (g pm : List (String × String)) (anc : String) :
    ∀ m, (metaOf (reconM g pm anc m)).title = (metaOf m).title
  | .doc _ _ _ => rfl
  | .cdoc _ _ _ => rfl
  | .ptr _ _ => rfl
  | .bind _ _ _ _ => rfl
  | .tbind _ _ _ => rfl

/-! Text preservation through the identifier/link pipeline. -/

theorem textOf_map (f : CElem → CElem) (hf : ∀ e, (f e).text = e.text) :
    ∀ content : List CElem, textOf (content.map f) = textOf content := by
  intro content
  induction content with
  | nil => rfl
  | cons e es ih =>
    simp only [List.map_cons, textOf, List.foldr_cons] at ih ⊢
    rw [hf e, ih]

theorem step1Elem_text (d : String) (e : CElem) : (step1Elem d e).text = e.text := by
  cases e with
  | mk i h t => cases i <;> rfl

theorem step2Elem_text (d : String) (olds : List String) (e : CElem) :
    (step2Elem d olds e).text = e.text := by
  cases e with
  | mk i h t =>
    cases h with
    | none => rfl
    | some h0 => simp only [step2Elem]; split <;> rfl

theorem rewriteHrefElem_text (pm : List (String × String)) (e : CElem) :
    (rewriteHrefElem pm e).text = e.text := by
  cases e with
  | mk i h t => cases h <;> rfl

theorem linkPassElem_text (g : List (String × String)) (e : CElem) :
    (linkPassElem g e).text = e.text := by
  cases e with
  | mk i h t =>
    cases h with
    | none => rfl
    | some h0 =>
      simp only [linkPassElem]
      split
      · split <;> rfl
      · rfl

theorem textOf_restoreContentGo :
    ∀ (used : List String) (content : List CElem),
      textOf (restoreContentGo used content) = textOf content := by
  intro used content
  induction content generalizing used with
  | nil => rfl
  | cons e es ih =>
    cases he : e.id with
    | none =>
      simp only [restoreContentGo, he, textOf, List.foldr_cons]
      have h2 := ih used
      simp only [textOf] at h2
      rw [h2]
    | some i =>
      simp only [restoreContentGo, he, textOf, List.foldr_cons]
      have h2 := ih (restoreLocal i :: used)
      simp only [textOf] at h2
      rw [h2]

theorem textOf_pipeline (g pm : List (String × String)) (d : String)
    (content : List CElem) :
    textOf (linkPassContent g (restoreContent (rewriteContentList pm
      (generateIds d content)))) = textOf content := by
  rw [linkPassContent, textOf_map _ (linkPassElem_text g), restoreContent,
    textOf_restoreContentGo, rewriteContentList, textOf_map _ (rewriteHrefElem_text pm),
    generateIds, generateIdsStep2, textOf_map _ (step2Elem_text _ _),
    generateIdsStep1, textOf_map _ (step1Elem_text _)]

/-- The positional relation between the leaf texts of the original and
the reconstituted tree: a leaf owning text keeps it byte for byte. -/
def keepsText (o o2 : Option String) : Prop := ∀ t, o = some t → o2 = some t

theorem keepsText_append :
    ∀ {a b c d : List (Option String)}, List.Forall₂ keepsText a b →
      List.Forall₂ keepsText c d → List.Forall₂ keepsText (a ++ c) (b ++ d) := by
  intro a b c d h1 h2
  induction h1 with
  | nil => exact h2
  | cons hR _ ih => exact List.Forall₂.cons hR ih

mutual
theorem leafTexts_reconM (g pm : List (String × String)) (anc : String) :
    ∀ m, List.Forall₂ keepsText (leafTextsM m) (leafTextsM (reconM g pm anc m))
  | .doc id me content => by
    refine List.Forall₂.cons (fun t ht => ?_) List.Forall₂.nil
    show some (textOf (linkPassContent g (restoreContent (rewriteContentList pm
      (generateIds id content))))) = some t
    rw [textOf_pipeline g pm id content]
    exact ht
  | .cdoc id me content => by
    refine List.Forall₂.cons (fun t ht => ?_) List.Forall₂.nil
    show some (textOf (linkPassContent g (restoreContent (rewriteContentList pm
      (generateIds id content))))) = some t
    rw [textOf_pipeline g pm id content]
    exact ht
  | .ptr id me => List.Forall₂.cons (fun t ht => by cases ht) List.Forall₂.nil
  | .bind id me cs ovs => leafTexts_reconL g pm _ cs
  | .tbind me cs ovs => leafTexts_reconL g pm _ cs
theorem leafTexts_reconL (g pm : List (String × String)) (anc : String) :
    ∀ cs, List.Forall₂ keepsText (leafTextsL cs) (leafTextsL (reconL g pm anc cs))
  | .nil => List.Forall₂.nil
  | .cons m ms =>
    keepsText_append (leafTexts_reconM g pm anc m) (leafTexts_reconL g pm anc ms)
end

theorem keepsText_get {l1 l2 : List (Option String)}
    (h : List.Forall₂ keepsText l1 l2) :
    ∀ i t, l1.get? i = some (some t) → l2.get? i = some (some t) := by
  induction h with
  | nil => intro i t h; cases h
  | cons hR hrest ih =>
    intro i t hg
    cases i with
    | zero =>
      simp only [List.get?_cons_zero] at hg ⊢
      injection hg with hg
      rw [hR t hg]
    | succ j => exact ih j t hg

/-! ### Positional reading of the navigation titles

`model_to_tree` looks each child's override up with `list.index`; when
the children are pairwise distinct this is the child's own position. -/

/-- Concatenation of child sequences. -/
def mlAppend : ModelList → ModelList → ModelList
  | .nil, b => b
  | .cons m ms, b => .cons m (mlAppend ms b)

/-- The navigation entries of a child sequence read positionally:
the i-th child is rendered with the i-th override. -/
def mtcPos : ModelList → List (Option String) → List NavTree
  | .nil, _ => []
  | .cons m ms, ovs => modelToTree (ovs.headD none) m :: mtcPos ms ovs.tail

theorem mlToList_append : ∀ a b, mlToList (mlAppend a b) = mlToList a ++ mlToList b
  | .nil, _ => rfl
  | .cons m ms, b => by simp [mlAppend, mlToList, mlToList_append ms b]

theorem mlLength_append : ∀ a b, mlLength (mlAppend a b) = mlLength b + mlLength a
  | .nil, _ => rfl
  | .cons m ms, b => by
    simp [mlAppend, mlLength, mlLength_append ms b]
    omega

theorem mlAppend_snoc :
    ∀ pre (m : Model) ms,
      mlAppend pre (.cons m ms) = mlAppend (mlAppend pre (.cons m .nil)) ms
  | .nil, _, _ => rfl
  | .cons p ps, m, ms => by
    simp [mlAppend, mlAppend_snoc ps m ms]

theorem mlIndexOf_append_notmem :
    ∀ pre (m : Model) ms, m ∉ mlToList pre →
      mlIndexOf (mlAppend pre (.cons m ms)) m = mlLength pre
  | .nil, m, ms, _ => by simp [mlAppend, mlIndexOf, mlLength]
  | .cons p ps, m, ms, h => by
    have hpm : ¬ p = m := fun he => h (he ▸ List.mem_cons_self _ _)
    have hps : m ∉ mlToList ps := fun hm => h (List.mem_cons_of_mem _ hm)
    simp [mlAppend, mlIndexOf, hpm, mlLength, mlIndexOf_append_notmem ps m ms hps]

theorem headD_drop (l : List (Option String)) :
    ∀ k, (l.drop k).headD none = (l.get? k).getD none := by
  induction l with
  | nil => intro k; cases k <;> rfl
  | cons a as ih =>
    intro k
    cases k with
    | zero => rfl
    | succ j => exact ih j

theorem getTitleForNode_positional (cs0 : ModelList) (ovs : List (Option String))
    (pre ms : ModelList) (m : Model)
    (hsplit : cs0 = mlAppend pre (.cons m ms)) (hnd : (mlToList cs0).Nodup) :
    getTitleForNode cs0 ovs m = (ovs.drop (mlLength pre)).headD none := by
  have hnotm : m ∉ mlToList pre := by
    rw [hsplit, mlToList_append] at hnd
    rcases List.nodup_append.1 hnd with ⟨_, _, hdisj⟩
    intro hm
    exact hdisj hm (List.mem_cons_self _ _)
  rw [getTitleForNode, hsplit, mlIndexOf_append_notmem pre m ms hnotm, headD_drop]

theorem mtc_eq_pos_aux (cs0 : ModelList) (ovs : List (Option String))
    (hnd : (mlToList cs0).Nodup) :
    ∀ (its pre : ModelList), cs0 = mlAppend pre its →
      modelToTreeChildren cs0 ovs its = mtcPos its (ovs.drop (mlLength pre))
  | .nil, _, _ => rfl
  | .cons m ms, pre, hsplit => by
    have hrec := mtc_eq_pos_aux cs0 ovs hnd ms (mlAppend pre (.cons m .nil))
      (by rw [hsplit, mlAppend_snoc])
    have hlenpre : mlLength (mlAppend pre (.cons m .nil)) = mlLength pre + 1 := by
      rw [mlLength_append]
      simp [mlLength]
      omega
    rw [modelToTreeChildren, mtcPos, hrec, hlenpre,
      getTitleForNode_positional cs0 ovs pre ms m hsplit hnd, List.tail_drop]

theorem mtc_eq_pos (cs0 : ModelList) (ovs : List (Option String))
    (hnd : (mlToList cs0).Nodup) :
    modelToTreeChildren cs0 ovs cs0 = mtcPos cs0 ovs := by
  have h := mtc_eq_pos_aux cs0 ovs hnd cs0 .nil rfl
  simpa using h

/-- The title of a navigation node built by `model_to_tree` is the
effective display title. -/
theorem titleOf_modelToTree (t : Option String) (m : Model) :
    (modelToTree t m).titleOf = effTitleOf t m := by
  cases m <;> rfl

theorem effTitleOf_displayed (t : Option String) (m0 m1 : Model)
    (h : (metaOf m1).title = (metaOf m0).title) :
    effTitleOf (some (effTitleOf t m0)) m1 = effTitleOf t m0 := by
  by_cases hD : effTitleOf t m0 = ""
  · rw [hD]
    have hm0 : (metaOf m0).title = "" := by
      rcases t with _ | s
      · exact hD
      · by_cases hs : s = ""
        · subst hs
          simpa [effTitleOf] using hD
        · simp [effTitleOf, hs] at hD
    simp [effTitleOf, h, hm0]
  · generalize hg : effTitleOf t m0 = D at hD ⊢
    simp [effTitleOf, hD]

mutual
theorem eff_reconM (g pm : List (String × String)) (anc : String) :
    ∀ m, wfM m = true → effTitlesM (reconM g pm anc m) = effTitlesM m
  | .doc _ _ _, _ => rfl
  | .cdoc _ _ _, _ => rfl
  | .ptr _ _, _ => rfl
  | .bind id me cs ovs, h => by
    rw [wfM, Bool.and_eq_true, Bool.and_eq_true] at h
    rcases h with ⟨⟨_, hnd⟩, hwl⟩
    rw [decide_eq_true_iff] at hnd
    show effTitlesL (reconL g pm _ cs)
        ((modelToTreeChildren cs ovs cs).map (fun n => some n.titleOf)) =
      effTitlesL cs ovs
    rw [mtc_eq_pos cs ovs hnd]
    exact eff_reconL g pm _ cs ovs hwl
  | .tbind me cs ovs, h => by
    rw [wfM, Bool.and_eq_true, Bool.and_eq_true] at h
    rcases h with ⟨⟨_, hnd⟩, hwl⟩
    rw [decide_eq_true_iff] at hnd
    show effTitlesL (reconL g pm _ cs)
        ((modelToTreeChildren cs ovs cs).map (fun n => some n.titleOf)) =
      effTitlesL cs ovs
    rw [mtc_eq_pos cs ovs hnd]
    exact eff_reconL g pm _ cs ovs hwl
theorem eff_reconL (g pm : List (String × String)) (anc : String) :
    ∀ cs (ovs : List (Option String)), wfL cs = true →
      effTitlesL (reconL g pm anc cs) ((mtcPos cs ovs).map (fun n => some n.titleOf)) =
        effTitlesL cs ovs
  | .nil, _, _ => rfl
  | .cons m ms, ovs, h => by
    rw [wfL, Bool.and_eq_true] at h
    rcases h with ⟨hwm, hwms⟩
    rw [reconL, mtcPos, List.map_cons, effTitlesL, effTitlesL]
    rw [List.headD_cons, List.tail_cons, titleOf_modelToTree,
      effTitleOf_displayed _ m _ (metaTitle_reconM g pm anc m),
      eff_reconM g pm anc m hwm, eff_reconL g pm anc ms ovs.tail hwms]
end

/-- The root override sequence of a tree. -/
def rootOverrides : Model → List (Option String)
  | .bind _ _ _ ovs => ovs
  | .tbind _ _ ovs => ovs
  | _ => []

/-- Claim C1, counterexample: a book with one page child and no title
override (`overrides = [None]`) reconstitutes — through the
spec-modelled reconstitutor — to a tree whose override sequence is
`[some "Page"]`: the reconstitutor recovers the overrides from the
navigation display titles, so an absent override comes back as an
explicit override equal to the intrinsic title, and the round trip does
not reproduce the same title overrides. -/
theorem single_html_round_trip_counterexample :
    (adaptSingle (formatSingle
        (.bind (some "b1") { title := "Book" }
          (.cons (.doc "d1" { title := "Page" } []) .nil) [none]))).map rootOverrides =
      .ok [some "Page"] ∧
    rootOverrides
        (.bind (some "b1") { title := "Book" }
          (.cons (.doc "d1" { title := "Page" } []) .nil) [none]) = [none] ∧
    some "Page" ≠ (none : Option String) :=
  ⟨rfl, rfl, by decide⟩

/-- Claim C1, amended: for every well-formed tree rooted at a `Binder`
(override sequences as long as the child sequences and, at every level,
pairwise-distinct children), reconstituting the formatter's
single-document output succeeds and yields a tree with the same node
count, the same structural role sequence, and the same per-parent
effective display titles (override where present and non-empty, else
intrinsic title); every document page's visible content text is
preserved byte for byte.  The override sequences themselves are not
reproduced: absent overrides come back as explicit overrides carrying
the effective titles (see the counterexample), translucent binders come
back as identifier-bearing binders, and document pointers come back as
documents carrying the rendered pointer body. -/
theorem single_html_round_trip (id : Option String) (me : MetaD)
    (cs : ModelList) (ovs : List (Option String))
    (hwf : wfM (.bind id me cs ovs) = true) :
    ∃ T2, adaptSingle (formatSingle (.bind id me cs ovs)) = .ok T2 ∧
      nodeCountM T2 = nodeCountM (.bind id me cs ovs) ∧
      roleSeqRoot T2 = roleSeqRoot (.bind id me cs ovs) ∧
      effTitlesM T2 = effTitlesM (.bind id me cs ovs) ∧
      (∀ i t, (leafTextsM (.bind id me cs ovs)).get? i = some (some t) →
        (leafTextsM T2).get? i = some (some t)) := by
  rw [wfM, Bool.and_eq_true, Bool.and_eq_true] at hwf
  rcases hwf with ⟨⟨_, hnd⟩, hwl⟩
  rw [decide_eq_true_iff] at hnd
  have hroot : formatSingle (.bind id me cs ovs) =
      { bookTitle := me.title
        bookUri := me.cnxArchiveUri
        nav := modelToTreeChildren cs ovs cs
        body := rewriteSList (pageUuidPairs (flattenDocIds (.bind id me cs ovs)))
          (buildList cs) } := rfl
  have hadapt : adaptSingle (formatSingle (.bind id me cs ovs)) =
      .ok (.bind
        (some (match me.cnxArchiveUri with
          | some uri => (pySplitChar '@' uri).headD ""
          | none => "book"))
        { title := me.title, cnxArchiveUri := me.cnxArchiveUri }
        (reconL
          (gatherAutoS (rewriteSList (pageUuidPairs (flattenDocIds (.bind id me cs ovs)))
            (buildList cs)))
          (pageUuidPairs (flattenDocIds (.bind id me cs ovs)))
          (match me.cnxArchiveUri with
            | some uri => (pySplitChar '@' uri).headD ""
            | none => "book")
          cs)
        ((modelToTreeChildren cs ovs cs).map (fun n => some n.titleOf))) := by
    rw [hroot]
    simp only [adaptSingle]
    rw [if_neg (by
      rw [sLen_rewriteSList, sLen_buildList, length_modelToTreeChildren]
      simp)]
    rw [adapt_format_go
      (gatherAutoS (rewriteSList (pageUuidPairs (flattenDocIds (.bind id me cs ovs)))
        (buildList cs)))
      (pageUuidPairs (flattenDocIds (.bind id me cs ovs)))
      (match me.cnxArchiveUri with
        | some uri => (pySplitChar '@' uri).headD ""
        | none => "book")
      cs ovs cs]
  refine ⟨_, hadapt, ?_, ?_, ?_, ?_⟩
  · show 1 + nodeCountL (reconL _ _ _ cs) = 1 + nodeCountL cs
    rw [nodeCount_reconL]
  · show "book" :: roleSeqL (reconL _ _ _ cs) = "book" :: roleSeqL cs
    rw [roleSeq_reconL]
  · show effTitlesL (reconL _ _ _ cs)
        ((modelToTreeChildren cs ovs cs).map (fun n => some n.titleOf)) =
      effTitlesL cs ovs
    rw [mtc_eq_pos cs ovs hnd]
    exact eff_reconL _ _ _ cs ovs hwl
  · intro i t h
    exact keepsText_get (leafTexts_reconL _ _ _ cs) i t h

/-- Claim C1, witness: the amended round trip evaluated on a concrete
two-page book (one document, one pointer) with one explicit
override. -/
theorem single_html_round_trip_witness :
    ∃ T2, adaptSingle (formatSingle (.bind (some "b2") { title := "B" }
        (.cons (.doc "p1" { title := "One" } [{ id := some "x", text := "hello" }])
          (.cons (.ptr "x@1" { title := "X" }) .nil))
        [some "Uno", none])) = .ok T2 ∧
      nodeCountM T2 = nodeCountM (.bind (some "b2") { title := "B" }
        (.cons (.doc "p1" { title := "One" } [{ id := some "x", text := "hello" }])
          (.cons (.ptr "x@1" { title := "X" }) .nil))
        [some "Uno", none]) ∧
      roleSeqRoot T2 = roleSeqRoot (.bind (some "b2") { title := "B" }
        (.cons (.doc "p1" { title := "One" } [{ id := some "x", text := "hello" }])
          (.cons (.ptr "x@1" { title := "X" }) .nil))
        [some "Uno", none]) ∧
      effTitlesM T2 = effTitlesM (.bind (some "b2") { title := "B" }
        (.cons (.doc "p1" { title := "One" } [{ id := some "x", text := "hello" }])
          (.cons (.ptr "x@1" { title := "X" }) .nil))
        [some "Uno", none]) ∧
      (∀ i t, (leafTextsM (.bind (some "b2") { title := "B" }
          (.cons (.doc "p1" { title := "One" } [{ id := some "x", text := "hello" }])
            (.cons (.ptr "x@1" { title := "X" }) .nil))
          [some "Uno", none])).get? i = some (some t) →
        (leafTextsM T2).get? i = some (some t)) :=
  single_html_round_trip (some "b2") { title := "B" }
    (.cons (.doc "p1" { title := "One" } [{ id := some "x", text := "hello" }])
      (.cons (.ptr "x@1" { title := "X" }) .nil))
    [some "Uno", none] (by decide)

end CnxEpub
